import Mathlib

/-!
Shallow embedding of the spreadsheet-parsing and consolidation core of the
portfolio-optimization repository, together with proofs of the specification
claims.  Cells of a spreadsheet are optional scalars (strings or exact
rationals; the absent value models pandas NaN).  Python dictionaries are
modelled as insertion-ordered association lists, and the random UUID supply
is modelled as a deterministic fresh-identifier counter.
-/

namespace Proc

/-- A scalar spreadsheet cell value: a string or a number.  Numbers are
modelled as exact rationals. -/
inductive Cell where
  | str (s : String)
  | num (q : ℚ)
deriving DecidableEq, Repr

/-- A spreadsheet row: a list of optional cells (`none` models NaN). -/
abbrev Row := List (Option Cell)

/-- A raw spreadsheet grid, as loaded with `header=None`. -/
abbrev RawGrid := List Row

/-- `str(v)` for a cell value (string representation; numeric rendering is
abstracted by the rational's canonical representation). -/
def cellStr : Cell → String
  | .str s => s
  | .num q => toString q

/-- `row.isna().all()`: the row is completely empty. -/
def rowEmpty (r : Row) : Bool :=
  r.all Option.isNone

/-- `row.dropna()`: the non-empty cells of a row, left to right. -/
def dropna (r : Row) : List Cell :=
  r.filterMap id

/-- Fallback-aware table name: the first non-NaN value's string form, or
`Table_<k+1>` if the row has no value (`k` the number of tables so far). -/
def tableNameOf (r : Row) (k : Nat) : String :=
  match (dropna r).head? with
  | some c => cellStr c
  | none => "Table_" ++ toString (k + 1)

/-- The loop body of `identify_table_boundaries`: walk the remaining rows,
carrying the current row index, the open table (start row and name) if any,
and the tables found so far. -/
def boundariesGo : List Row → Nat → Option (Nat × String) →
    List (Nat × Nat × String) → List (Nat × Nat × String)
  | [], idx, cur, acc =>
    match cur with
    | some (s, n) => acc ++ [(s, idx - 1, n)]
    | none => acc
  | r :: rest, idx, cur, acc =>
    if rowEmpty r then
      match cur with
      | some (s, n) => boundariesGo rest (idx + 1) none (acc ++ [(s, idx - 1, n)])
      | none => boundariesGo rest (idx + 1) none acc
    else
      match cur with
      | some c => boundariesGo rest (idx + 1) (some c) acc
      | none => boundariesGo rest (idx + 1) (some (idx, tableNameOf r acc.length)) acc

/-- `identify_table_boundaries` from `backtest_analysis_processor_working.py`:
split the grid into contiguous runs of non-empty rows, returning
`(start_row, end_row, table_name)` for each run. -/
def identify_table_boundaries (df : RawGrid) : List (Nat × Nat × String) :=
  boundariesGo df 0 none []

/-- Whether row `i` of grid `g` is empty (out-of-range rows count as empty). -/
def emptyAt (g : RawGrid) (i : Nat) : Bool :=
  match g[i]? with
  | some r => rowEmpty r
  | none => true

/-- A boundary-detector block: start row, end row, table name. -/
abbrev Block := Nat × Nat × String

/-- Two blocks in order: the first ends strictly before the second starts. -/
def BlockLt (b1 b2 : Block) : Prop :=
  b1.2.1 < b2.1

/-- A block is well formed for grid `g`: non-empty range inside the grid, all
its rows non-empty, and bounded on each side by an empty row or a grid edge. -/
def BlockOK (g : RawGrid) (b : Block) : Prop :=
  b.1 ≤ b.2.1 ∧ b.2.1 < g.length ∧
    (∀ i, b.1 ≤ i → i ≤ b.2.1 → emptyAt g i = false) ∧
    (b.1 = 0 ∨ emptyAt g (b.1 - 1) = true) ∧
    (b.2.1 = g.length - 1 ∨ emptyAt g (b.2.1 + 1) = true)

/-- Row index `i` lies in the range of some block of `bs`. -/
def Covered (bs : List Block) (i : Nat) : Prop :=
  ∃ b ∈ bs, b.1 ≤ i ∧ i ≤ b.2.1

/-- The loop invariant on the optional open table of `boundariesGo`. -/
def CurInv (g : RawGrid) (idx : Nat) (acc : List Block) :
    Option (Nat × String) → Prop
  | some (s, _) =>
    s < idx ∧ (s = 0 ∨ emptyAt g (s - 1) = true) ∧
      (∀ i, s ≤ i → i < idx → emptyAt g i = false) ∧
      (∀ b ∈ acc, b.2.1 < s) ∧
      (∀ i, i < s → Covered acc i ∨ emptyAt g i = true)
  | none =>
    (idx = 0 ∨ emptyAt g (idx - 1) = true) ∧
      (∀ b ∈ acc, b.2.1 < idx) ∧
      (∀ i, i < idx → Covered acc i ∨ emptyAt g i = true)

/-- Full loop invariant of `boundariesGo`. -/
def Inv (g : RawGrid) (idx : Nat) (cur : Option (Nat × String))
    (acc : List Block) : Prop :=
  (∀ b ∈ acc, BlockOK g b) ∧ List.Chain' BlockLt acc ∧ CurInv g idx acc cur

/-- The desired outcome: well-formed ordered blocks covering all non-empty rows. -/
def Outcome (g : RawGrid) (bs : List Block) : Prop :=
  (∀ b ∈ bs, BlockOK g b) ∧ List.Chain' BlockLt bs ∧
    (∀ i, i < g.length → Covered bs i ∨ emptyAt g i = true)

/-- Substring test on character lists: the needle occurs contiguously. -/
def subChars (n : List Char) : List Char → Bool
  | [] => n.isEmpty
  | c :: t => n.isPrefixOf (c :: t) || subChars n t

/-- Python's `needle in hay` substring containment on strings. -/
def strContains (hay needle : String) : Bool :=
  subChars needle.data hay.data

/-- `str.lower()` (characterwise lowering). -/
def toLowerStr (s : String) : String :=
  ⟨s.data.map Char.toLower⟩

/-- `str.strip()`: remove leading and trailing whitespace. -/
def trimStr (s : String) : String :=
  ⟨((s.data.dropWhile Char.isWhitespace).reverse.dropWhile Char.isWhitespace).reverse⟩

/-- `' '.join(xs)`. -/
def joinSpace : List String → String
  | [] => ""
  | [s] => s
  | s :: rest => s ++ " " ++ joinSpace rest

/-- `' '.join([str(v).lower() for v in row.dropna()])`. -/
def joinedLower (r : Row) : String :=
  joinSpace ((dropna r).map (fun c => toLowerStr (cellStr c)))

/-- `row.notna().sum()`: the number of non-empty cells. -/
def notnaCount (r : Row) : Nat :=
  (dropna r).length

/-- The fixed header keyword list of `detect_table_structure`. -/
def header_keywords : List String :=
  ["metric", "name", "portfolio", "asset", "year", "allocation", "month"]

/-- A row looks like a header: at least two non-empty cells and the joined
lowercased text contains one of the keywords. -/
def isHeaderRow (r : Row) : Bool :=
  2 ≤ notnaCount r && header_keywords.any (fun k => strContains (joinedLower r) k)

/-- The header-scanning loop: index of the first header-looking row. -/
def findHeaderGo : List Row → Nat → Option Nat
  | [], _ => none
  | r :: rest, idx => if isHeaderRow r then some idx else findHeaderGo rest (idx + 1)

/-- The table-type enumeration of `detect_table_structure`. -/
inductive TType where
  | allocation
  | metrics
  | returns
  | correlation
  | unknown
deriving DecidableEq, Repr

/-- The structure dictionary produced by `detect_table_structure`. -/
structure TableStructure where
  header_row : Option Nat
  data_start_row : Option Nat
  num_columns : Nat
  table_type : TType
deriving DecidableEq, Repr

/-- The type-classification chain of `detect_table_structure`, applied to the
header row's joined lowercased text (first match wins). -/
def classifyHeader (t : String) : TType :=
  if strContains t "allocation" then .allocation
  else if strContains t "metric" || strContains t "performance" then .metrics
  else if strContains t "return" || strContains t "year" then .returns
  else if strContains t "correlation" then .correlation
  else .unknown

/-- `detect_table_structure` from `backtest_analysis_processor_working.py`:
find the header row by keyword scan (falling back to the first row), then
classify the table type from the header row's joined lowercased text. -/
def detect_table_structure (b : List Row) : TableStructure :=
  let base : TableStructure :=
    match findHeaderGo b 0 with
    | some idx =>
      { header_row := some idx, data_start_row := some (idx + 1),
        num_columns := notnaCount (b.getD idx []), table_type := .unknown }
    | none =>
      if 0 < b.length then
        { header_row := some 0, data_start_row := some 1,
          num_columns := notnaCount (b.getD 0 []), table_type := .unknown }
      else
        { header_row := none, data_start_row := none,
          num_columns := 0, table_type := .unknown }
  match base.header_row with
  | some h => { base with table_type := classifyHeader (joinedLower (b.getD h [])) }
  | none => base

/-- The row-scanning loop of `parse_key_value_table`, accumulating
`(Key, Value)` pairs exactly as the Python loop appends them. -/
def kvGo : List Row → List (Cell × Option Cell) → List (Cell × Option Cell)
  | [], acc => acc
  | r :: rest, acc =>
    match dropna r with
    | k :: v :: _ => kvGo rest (acc ++ [(k, some v)])
    | [k] => kvGo rest (acc ++ [(k, none)])
    | [] => kvGo rest acc

/-- `parse_key_value_table`: each row with two or more non-empty cells yields
a (first, second) pair, exactly one non-empty cell yields (cell, none), an
empty row yields nothing. -/
def parse_key_value_table (b : List Row) : List (Cell × Option Cell) :=
  kvGo b []

/-- A rectangular parsed table: ordered column names, ordered data rows. -/
structure Table where
  cols : List String
  rows : List Row
deriving DecidableEq, Repr

/-- Column names from the header row: a non-empty cell's string form, or a
positional placeholder `Column_<i>` for an empty header cell. -/
def headerColumns (hr : Row) : List String :=
  hr.enum.map (fun p =>
    match p.2 with
    | some c => cellStr c
    | none => "Column_" ++ toString p.1)

/-- `row.notna().any()`: the row has at least one non-empty cell. -/
def rowAny (r : Row) : Bool :=
  r.any Option.isSome

/-- `row.iloc[:w]`: truncate a row to the column count. -/
def truncTo (r : Row) (w : Nat) : Row :=
  r.take w

/-- A column is entirely empty across the given rows. -/
def colIsEmpty (rows : List Row) (j : Nat) : Bool :=
  rows.all (fun r => (r.getD j none).isNone)

/-- `df.dropna(axis=1, how='all')`: drop columns that are entirely empty. -/
def dropEmptyCols (t : Table) : Table :=
  let keep := (List.range t.cols.length).filter (fun j => !colIsEmpty t.rows j)
  { cols := keep.map (fun j => t.cols.getD j ""),
    rows := t.rows.map (fun r => keep.map (fun j => r.getD j none)) }

/-- `df.dropna(axis=0, how='all')`: drop rows that are entirely empty. -/
def dropEmptyRows (t : Table) : Table :=
  { t with rows := t.rows.filter rowAny }

/-- `parse_tabular_data`: header cells name the columns, data rows from
`data_start_row` on are kept when they have any value and truncated to the
column count, then entirely-empty columns and rows are removed. -/
def parse_tabular_data (b : List Row) (st : TableStructure) : Table :=
  match st.header_row with
  | none => ⟨[], []⟩
  | some h =>
    match st.data_start_row with
    | none => ⟨[], []⟩
    | some ds =>
      let columns := headerColumns (b.getD h [])
      let dataRows := ((b.drop ds).filter rowAny).map (fun r => truncTo r columns.length)
      if dataRows.isEmpty then ⟨[], []⟩
      else dropEmptyRows (dropEmptyCols ⟨columns, dataRows⟩)

/-- A parsed table: either key-value pairs or rectangular tabular data. -/
inductive ParsedTable where
  | kv (entries : List (Cell × Option Cell))
  | tab (t : Table)
deriving DecidableEq, Repr

/-- `df.empty` for the two parsed shapes. -/
def ptEmpty : ParsedTable → Bool
  | .kv es => es.isEmpty
  | .tab t => t.rows.isEmpty

/-- The rows of the grid belonging to one block (`df_raw.iloc[start:end+1]`). -/
def blockSub (g : RawGrid) (b : Block) : List Row :=
  (g.drop b.1).take (b.2.1 + 1 - b.1)

/-- The per-block extraction dispatch of `parse_all_tables`: key-value when
the detected column count is at most 2 and the type is unknown, tabular
otherwise. -/
def extract_block (sub : List Row) : ParsedTable :=
  let st := detect_table_structure sub
  if st.num_columns ≤ 2 && st.table_type == TType.unknown then
    .kv (parse_key_value_table sub)
  else
    .tab (parse_tabular_data sub st)

/-- Python dict assignment on an insertion-ordered association list:
overwrite in place if the key exists, append otherwise. -/
def dictInsert (m : List (String × ParsedTable)) (k : String) (v : ParsedTable) :
    List (String × ParsedTable) :=
  if m.any (fun kv => kv.1 == k) then
    m.map (fun kv => if kv.1 == k then (kv.1, v) else kv)
  else m ++ [(k, v)]

/-- `table_name in parsed_tables`. -/
def dictContains (m : List (String × ParsedTable)) (k : String) : Bool :=
  m.any (fun kv => kv.1 == k)

/-- The per-block loop of `parse_all_tables` over the 1-based enumerated
blocks: clean the name, suffix it with the block number if already present,
extract, and store when the extraction is non-empty. -/
def parseTablesGo (g : RawGrid) :
    List (Nat × Block) → List (String × ParsedTable) → List (String × ParsedTable)
  | [], acc => acc
  | (num, b) :: rest, acc =>
    let name := trimStr b.2.2
    let key := if dictContains acc name then name ++ "_" ++ toString num else name
    let pt := extract_block (blockSub g b)
    if ptEmpty pt then parseTablesGo g rest acc
    else parseTablesGo g rest (dictInsert acc key pt)

/-- `parse_all_tables` over an already-loaded raw grid: identify boundaries,
then parse and store each block. -/
def parse_all_tables (g : RawGrid) : List (String × ParsedTable) :=
  parseTablesGo g ((identify_table_boundaries g).enum.map (fun p => (p.1 + 1, p.2))) []

/-- The number of blocks whose extraction is non-empty. -/
def nonEmptyBlockCount (g : RawGrid) : Nat :=
  ((identify_table_boundaries g).filter
    (fun b => !ptEmpty (extract_block (blockSub g b)))).length

/-- The key each non-empty block would be stored under, in block order:
the cleaned name, or the name suffixed with the 1-based block number when the
cleaned name is already among the earlier keys. -/
def chosenKeysGo (g : RawGrid) : List (Nat × Block) → List String → List String
  | [], ks => ks
  | (num, b) :: rest, ks =>
    let name := trimStr b.2.2
    let key := if ks.any (fun k => k == name) then name ++ "_" ++ toString num else name
    if ptEmpty (extract_block (blockSub g b)) then chosenKeysGo g rest ks
    else chosenKeysGo g rest (ks ++ [key])

/-- All chosen storage keys of a grid's non-empty blocks, in block order. -/
def chosenKeys (g : RawGrid) : List String :=
  chosenKeysGo g ((identify_table_boundaries g).enum.map (fun p => (p.1 + 1, p.2))) []

/-- View a parsed table as a rectangular DataFrame: a key-value table becomes
a two-column `Key`/`Value` frame (a `none` value is a missing cell). -/
def ptToTable : ParsedTable → Table
  | .kv es => ⟨["Key", "Value"], es.map (fun p => [some p.1, p.2])⟩
  | .tab t => t

end Proc

namespace Consol

/-- Python `str.startswith`. -/
def strStarts (p s : String) : Bool :=
  p.data.isPrefixOf s.data

/-- One asset row of an allocation CSV: the `Asset_Description` value and the
weight cell of each allocation column (`none` models a missing cell). -/
structure CsvRow where
  asset : String
  cells : String → Option ℚ

/-- An allocation CSV: its column names and its asset rows. -/
structure Batch where
  cols : List String
  rows : List CsvRow

/-- The allocation columns of a batch: names prefixed `Grid_`, `Portfolio_`
or `TreasuryGrid_`. -/
def portfolioCols (cols : List String) : List String :=
  cols.filter (fun c =>
    strStarts "Grid_" c || strStarts "Portfolio_" c || strStarts "TreasuryGrid_" c)

/-- The portfolio-name-to-identifier map.  `uuid.uuid4()` is modelled as a
deterministic fresh-identifier counter: each mint consumes the next number. -/
abbrev UuidMap := List (String × Nat)

/-- One row of the portfolio-metadata output table. -/
structure MetaRow where
  portfolio_uuid : Nat
  portfolio_name : String
  asset_name : String
  portfolio_weight : ℚ
deriving DecidableEq, Repr

/-- The inner asset-row loop of metadata generation: one record per row whose
weight cell is present and strictly positive, storing the weight divided
by 100. -/
def metaRowsFor (rows : List CsvRow) (uuid : Nat) (col : String) : List MetaRow :=
  rows.filterMap (fun r =>
    match r.cells col with
    | some w => if 0 < w then some ⟨uuid, col, r.asset, w / 100⟩ else none
    | none => none)

/-- The column loop of `generate_batch_metadata`: reuse the mapped identifier
when the column name is present, otherwise mint a fresh one; extend the
accumulated metadata rows in column order. -/
def genMetaGo (rows : List CsvRow) :
    List String → List MetaRow → UuidMap → Nat → List MetaRow × UuidMap × Nat
  | [], acc, m, fresh => (acc, m, fresh)
  | col :: rest, acc, m, fresh =>
    match m.lookup col with
    | some u => genMetaGo rows rest (acc ++ metaRowsFor rows u col) m fresh
    | none => genMetaGo rows rest (acc ++ metaRowsFor rows fresh col)
        (m ++ [(col, fresh)]) (fresh + 1)

/-- `generate_batch_metadata` from `consolidate_batch_results.py` (the CSV
read is hoisted to the caller): extend the given identifier map over the
batch's allocation columns and emit the metadata rows. -/
def generate_batch_metadata (b : Batch) (m : UuidMap) (fresh : Nat) :
    List MetaRow × UuidMap × Nat :=
  genMetaGo b.rows (portfolioCols b.cols) [] m fresh

/-- Python dict assignment on the identifier map. -/
def upsertUuid (m : UuidMap) (k : String) (v : Nat) : UuidMap :=
  if m.any (fun kv => kv.1 == k) then
    m.map (fun kv => if kv.1 == k then (kv.1, v) else kv)
  else m ++ [(k, v)]

/-- The column loop of `generate_portfolio_metadata` from
`backtest_analysis_processor_working.py`: a fresh identifier is minted for
every column on every run (no existing map is consulted). -/
def genPortfolioGo (rows : List CsvRow) :
    List String → List MetaRow → UuidMap → Nat → List MetaRow × UuidMap × Nat
  | [], acc, m, fresh => (acc, m, fresh)
  | col :: rest, acc, m, fresh =>
    genPortfolioGo rows rest (acc ++ metaRowsFor rows fresh col)
      (upsertUuid m col fresh) (fresh + 1)

/-- `generate_portfolio_metadata` (CSV read hoisted; columns auto-detected as
the `Portfolio_`-prefixed ones): builds a fresh map and mints a new
identifier per column unconditionally. -/
def generate_portfolio_metadata (b : Batch) (fresh : Nat) :
    List MetaRow × UuidMap × Nat :=
  genPortfolioGo b.rows (b.cols.filter (fun c => strStarts "Portfolio_" c)) [] [] fresh

/-- One row of the performance-metrics output table. -/
structure MetricRow where
  portfolio_uuid : Nat
  portfolio_name : String
  metric_name : String
  metric_value : ℚ
  table_source : String
deriving DecidableEq, Repr

/-- `str(v)` of a possibly-missing cell (`str(nan)` is `"nan"`). -/
def strOfOpt : Option Proc.Cell → String
  | some c => Proc.cellStr c
  | none => "nan"

/-- The fixed target table names of `extract_batch_metrics`. -/
def target_tables : List String :=
  ["Portfolio Performance (Jan 2003 - Nov 2025)",
   "Portfolio Performance (Jan 1998 - Dec 2025)",
   "Risk and Return Metrics (Jan 2003 - Nov 2025)",
   "Risk and Return Metrics (Jan 1998 - Dec 2025)"]

/-- `table_name[:30]`. -/
def strTake30 (s : String) : String :=
  ⟨s.data.take 30⟩

/-- The Portfolio-Visualizer-column to grid-name mapping: the first batch
column is `Sample Portfolio`, the i-th is `Portfolio <i+1>`. -/
def pvToGridMapping (cols : List String) : List (String × String) :=
  cols.enum.map (fun p =>
    if p.1 = 0 then ("Sample Portfolio", p.2)
    else ("Portfolio " ++ toString (p.1 + 1), p.2))

/-- Column-name resolution of `extract_batch_metrics`: exact mapping key
first, then lowercased substring hints. -/
def resolveGridName (mapping : List (String × String)) (pv_col : String) :
    Option String :=
  if (mapping.lookup pv_col).isSome then mapping.lookup pv_col
  else if Proc.strContains (Proc.toLowerStr pv_col) "sample" then
    mapping.lookup "Sample Portfolio"
  else if Proc.strContains (Proc.toLowerStr pv_col) "portfolio 2" then
    mapping.lookup "Portfolio 2"
  else if Proc.strContains (Proc.toLowerStr pv_col) "portfolio 3" then
    mapping.lookup "Portfolio 3"
  else none

/-- `if not grid_name or grid_name not in portfolio_uuid_map: continue`. -/
def gridUuid (m : UuidMap) : Option String → Option (String × Nat)
  | none => none
  | some gname =>
    if gname == "" then none
    else
      match m.lookup gname with
      | some u => some (gname, u)
      | none => none

/-- The inner row loop of metric extraction: one record per row whose cell in
the given column is numeric, with the row's first cell as metric name.
Missing or non-numeric cells yield no record. -/
def metricRowsFor (rows : List Proc.Row) (colIdx : Nat) (uuid : Nat)
    (gname src : String) : List MetricRow :=
  rows.filterMap (fun r =>
    match r.getD colIdx none with
    | some (Proc.Cell.num q) =>
      some ⟨uuid, gname, strOfOpt (r.getD 0 none), q, src⟩
    | _ => none)

/-- Per-target-table processing of `extract_batch_metrics`: find the first
stored table whose name contains the target's first 30 characters, then
extract one record batch per mappable portfolio column. -/
def metricsForTable (all_tables : List (String × Proc.Table)) (cols : List String)
    (m : UuidMap) (tname : String) : List MetricRow :=
  match (all_tables.map Prod.fst).filter
      (fun t => Proc.strContains t (strTake30 tname)) with
  | [] => []
  | actual :: _ =>
    match all_tables.lookup actual with
    | none => []
    | some tbl =>
      (tbl.cols.enum.drop 1).foldl (fun acc p =>
        match gridUuid m (resolveGridName (pvToGridMapping cols) p.2) with
        | none => acc
        | some gu => acc ++ metricRowsFor tbl.rows p.1 gu.2 gu.1 actual) []

/-- `extract_batch_metrics` from `consolidate_batch_results.py` (batch CSV
read hoisted to the caller). -/
def extract_batch_metrics (all_tables : List (String × Proc.Table)) (b : Batch)
    (m : UuidMap) : List MetricRow :=
  target_tables.foldl (fun acc tname =>
    acc ++ metricsForTable all_tables (portfolioCols b.cols) m tname) []

/-- The fixed target table names of `extract_performance_metrics_long`. -/
def target_tables_long : List String :=
  ["Portfolio Performance (Jan 2003 - Nov 2025)",
   "Risk and Return Metrics (Jan 2003 - Nov 2025)"]

/-- Column resolution of `extract_performance_metrics_long`. -/
def resolvePortfolioKey (col : String) : Option String :=
  if Proc.strContains (Proc.toLowerStr col) "sample" || col == "Sample Portfolio" then
    some "Portfolio_1"
  else if Proc.strContains (Proc.toLowerStr col) "portfolio 2" || col == "Portfolio 2" then
    some "Portfolio_2"
  else if Proc.strContains (Proc.toLowerStr col) "portfolio 3" || col == "Portfolio 3" then
    some "Portfolio_3"
  else none

/-- `extract_performance_metrics_long` from
`backtest_analysis_processor_working.py`. -/
def extract_performance_metrics_long (all_tables : List (String × Proc.Table))
    (m : UuidMap) : List MetricRow :=
  target_tables_long.foldl (fun acc tname =>
    match all_tables.lookup tname with
    | none => acc
    | some tbl =>
      acc ++ (tbl.cols.enum.drop 1).foldl (fun acc2 p =>
        match resolvePortfolioKey p.2 with
        | none => acc2
        | some pkey =>
          match m.lookup pkey with
          | none => acc2
          | some u => acc2 ++ metricRowsFor tbl.rows p.1 u pkey tname) []) []

/-- Python exceptions relevant to the consolidation step. -/
inductive PyErr where
  | fileNotFound
  | indexError
deriving DecidableEq, Repr

/-- The files visible to a run: CSV reads may fail (a missing path is
`none`); results spreadsheets are supplied as already-loadable raw grids
(claim-relevant failures concern only the CSV inputs). -/
structure FileSystem where
  manifestCsv : String → Option (List (Nat × String))
  batchCsv : String → Option Batch
  xlsxGrid : String → Proc.RawGrid
  globMatches : Nat → List String

/-- `pd.read_csv(manifest_file)`: raises FileNotFoundError when missing. -/
def readManifest (fs : FileSystem) (path : String) :
    Except PyErr (List (Nat × String)) :=
  match fs.manifestCsv path with
  | some m => Except.ok m
  | none => Except.error PyErr.fileNotFound

/-- `pd.read_csv(batch_file)`: raises FileNotFoundError when missing. -/
def readBatchCsv (fs : FileSystem) (path : String) : Except PyErr Batch :=
  match fs.batchCsv path with
  | some b => Except.ok b
  | none => Except.error PyErr.fileNotFound

/-- `glob.glob(pattern)[0]`: raises IndexError when no file matches. -/
def globFirst (fs : FileSystem) (num : Nat) : Except PyErr String :=
  match fs.globMatches num with
  | [] => Except.error PyErr.indexError
  | f :: _ => Except.ok f

/-- The accumulating state of `consolidate_all_batches`. -/
structure ConsState where
  metadata : List MetaRow
  metrics : List MetricRow
  uuidMap : UuidMap
  fresh : Nat

/-- One iteration of the batch loop of `consolidate_all_batches`: resolve the
batch file, parse the results spreadsheet, read the batch CSV, generate
metadata and extract metrics.  Any raised error propagates. -/
def processBatch (fs : FileSystem) (st : ConsState) (row : Nat × String) :
    Except PyErr ConsState := do
  let batch_file ← globFirst fs row.1
  let all_tables := (Proc.parse_all_tables (fs.xlsxGrid row.2)).map
    (fun p => (p.1, Proc.ptToTable p.2))
  let df_batch ← readBatchCsv fs batch_file
  let md := generate_batch_metadata df_batch st.uuidMap st.fresh
  let bmetrics := extract_batch_metrics all_tables df_batch md.2.1
  return ⟨st.metadata ++ md.1, st.metrics ++ bmetrics, md.2.1, md.2.2⟩

/-- `consolidate_all_batches` from `consolidate_batch_results.py`: read the
manifest (a missing manifest propagates FileNotFoundError) and fold the batch
loop over its rows. -/
def consolidate_all_batches (fs : FileSystem) (manifest_file : String) :
    Except PyErr (List MetaRow × List MetricRow × UuidMap) := do
  let manifest ← readManifest fs manifest_file
  let final ← manifest.foldlM (processBatch fs) ⟨[], [], [], 0⟩
  return (final.metadata, final.metrics, final.uuidMap)

/-- The allocations-CSV loading step of `main` in
`backtest_analysis_processor_working.py` (lines 356-387): the read is wrapped
in `try/except FileNotFoundError`, so a missing file produces a warning and
`df_allocations = None`, and the step completes normally. -/
def main_load_allocations (fs : FileSystem) (path : String) :
    Except PyErr (Option Batch) :=
  match readBatchCsv fs path with
  | Except.ok df => Except.ok (some df)
  | Except.error PyErr.fileNotFound => Except.ok none
  | Except.error e => Except.error e

end Consol

namespace Grid

/-- A candidate portfolio: identifier and the seven asset-class weights. -/
structure Portfolio where
  portfolio_id : String
  us_equities : ℚ
  intl_dev : ℚ
  emerging : ℚ
  treasuries : ℚ
  tips : ℚ
  corp_bonds : ℚ
  reit : ℚ
deriving DecidableEq, Repr

/-- The seven asset weights of a portfolio, in source order. -/
def weights (p : Portfolio) : List ℚ :=
  [p.us_equities, p.intl_dev, p.emerging, p.treasuries, p.tips, p.corp_bonds, p.reit]

/-- The 3% minimum-allocation floor. -/
def MIN_ALLOC : ℚ := 3 / 100

/-- `sum(v for k, v in portfolio.items() if k != 'portfolio_id')`. -/
def total (p : Portfolio) : ℚ :=
  (weights p).sum

/-- Normalisation: every weight divided by the portfolio total. -/
def normalize (p : Portfolio) : Portfolio :=
  { p with
    us_equities := p.us_equities / total p,
    intl_dev := p.intl_dev / total p,
    emerging := p.emerging / total p,
    treasuries := p.treasuries / total p,
    tips := p.tips / total p,
    corp_bonds := p.corp_bonds / total p,
    reit := p.reit / total p }

/-- `f'{n:03d}'`. -/
def pad3 (n : Nat) : String :=
  if n < 10 then "00" ++ toString n
  else if n < 100 then "0" ++ toString n
  else toString n

/-- The innermost coarse-grid loop body for one parameter combination:
construct and normalise the candidate, or `none` at any `continue`. -/
def coarseAttempt (eq_split us_ratio intl_ratio treas_ratio tips_ratio reit : ℚ)
    (pid : String) : Option Portfolio :=
  let total_equity := eq_split
  let total_fi := 1 - total_equity
  let non_reit_equity := total_equity - reit
  let us_equities := non_reit_equity * us_ratio
  let intl_dev := non_reit_equity * intl_ratio
  let emerging := non_reit_equity * (1 - us_ratio - intl_ratio)
  if emerging < MIN_ALLOC then none
  else if us_equities < MIN_ALLOC ∨ intl_dev < MIN_ALLOC then none
  else
    let treasuries := total_fi * treas_ratio
    let tips := total_fi * tips_ratio
    let corp_bonds := total_fi * (1 - treas_ratio - tips_ratio)
    if corp_bonds < MIN_ALLOC ∨ treasuries < MIN_ALLOC ∨ tips < MIN_ALLOC then none
    else if reit < MIN_ALLOC then none
    else
      let p : Portfolio :=
        ⟨pid, us_equities, intl_dev, emerging, treasuries, tips, corp_bonds, reit⟩
      if |total p - 1| < 1 / 1000 then some (normalize p) else none

/-- The innermost fine-grid loop body: as coarse, with the additional
minimum-20%-non-REIT-equity skip. -/
def fineAttempt (eq_split us_ratio intl_ratio treas_ratio tips_ratio reit : ℚ)
    (pid : String) : Option Portfolio :=
  let total_equity := eq_split
  let total_fi := 1 - total_equity
  let non_reit_equity := total_equity - reit
  if non_reit_equity < 1 / 5 then none
  else
    let us_equities := non_reit_equity * us_ratio
    let intl_dev := non_reit_equity * intl_ratio
    let emerging := non_reit_equity * (1 - us_ratio - intl_ratio)
    if emerging < MIN_ALLOC ∨ us_equities < MIN_ALLOC ∨ intl_dev < MIN_ALLOC then none
    else
      let treasuries := total_fi * treas_ratio
      let tips := total_fi * tips_ratio
      let corp_bonds := total_fi * (1 - treas_ratio - tips_ratio)
      if corp_bonds < MIN_ALLOC ∨ treasuries < MIN_ALLOC ∨ tips < MIN_ALLOC then none
      else if reit < MIN_ALLOC then none
      else
        let p : Portfolio :=
          ⟨pid, us_equities, intl_dev, emerging, treasuries, tips, corp_bonds, reit⟩
        if |total p - 1| < 1 / 1000 then some (normalize p) else none

/-- Row-major product of the six coarse grid parameter lists. -/
def coarseParams : List (ℚ × ℚ × ℚ × ℚ × ℚ × ℚ) :=
  [(0.50 : ℚ), 0.675, 0.70].flatMap (fun e =>
    [(0.70 : ℚ), 0.55, 0.50].flatMap (fun u =>
      [(0.20 : ℚ), 0.22, 0.35].flatMap (fun i =>
        [(0.31 : ℚ), 0.40, 0.50].flatMap (fun t =>
          [(0.46 : ℚ), 0.40, 0.30].flatMap (fun s =>
            [(0.05 : ℚ), 0.075, 0.10].map (fun r => (e, u, i, t, s, r)))))))

/-- Row-major product of the six fine grid parameter lists. -/
def fineParams : List (ℚ × ℚ × ℚ × ℚ × ℚ × ℚ) :=
  [(0.40 : ℚ), 0.50, 0.60, 0.675, 0.70, 0.80].flatMap (fun e =>
    [(0.70 : ℚ), 0.60, 0.55, 0.50, 0.40].flatMap (fun u =>
      [(0.20 : ℚ), 0.22, 0.30, 0.35, 0.40].flatMap (fun i =>
        [(0.20 : ℚ), 0.31, 0.40, 0.50].flatMap (fun t =>
          [(0.30 : ℚ), 0.40, 0.46, 0.50].flatMap (fun s =>
            [(0.05 : ℚ), 0.075, 0.10, 0.15, 0.20].map (fun r => (e, u, i, t, s, r)))))))

/-- One grid-loop step: append the accepted candidate and advance the
identifier counter, or keep the state on a skip. -/
def gridStep (attempt : ℚ → ℚ → ℚ → ℚ → ℚ → ℚ → String → Option Portfolio)
    (tag : String) (st : List Portfolio × Nat) (pr : ℚ × ℚ × ℚ × ℚ × ℚ × ℚ) :
    List Portfolio × Nat :=
  match attempt pr.1 pr.2.1 pr.2.2.1 pr.2.2.2.1 pr.2.2.2.2.1 pr.2.2.2.2.2
      (tag ++ pad3 st.2) with
  | some p => (st.1 ++ [p], st.2 + 1)
  | none => st

/-- `generate_coarse_grid` from `generate_portfolio_grid.py`. -/
def generate_coarse_grid : List Portfolio :=
  (coarseParams.foldl (gridStep coarseAttempt "Grid_") ([], 1)).1

/-- `generate_fine_grid` from `generate_portfolio_grid.py`. -/
def generate_fine_grid : List Portfolio :=
  (fineParams.foldl (gridStep fineAttempt "FineGrid_") ([], 1)).1

/-- The numpy draws consumed by one attempt of
`generate_random_portfolios`: the uniform total-equity and REIT draws and
the two Dirichlet weight triples. -/
structure Draw where
  total_equity : ℚ
  reit : ℚ
  eq_w : ℚ × ℚ × ℚ
  fi_w : ℚ × ℚ × ℚ

/-- One attempt of the random-portfolio loop: construct, normalise, and keep
only when every normalised weight meets the 3% floor. -/
def randomAttempt (d : Draw) (pid : String) : Option Portfolio :=
  let non_reit_equity := d.total_equity - d.reit
  let us_equities := non_reit_equity * d.eq_w.1
  let intl_dev := non_reit_equity * d.eq_w.2.1
  let emerging := non_reit_equity * d.eq_w.2.2
  if us_equities < MIN_ALLOC ∨ intl_dev < MIN_ALLOC ∨ emerging < MIN_ALLOC then none
  else
    let total_fi := 1 - d.total_equity
    let treasuries := total_fi * d.fi_w.1
    let tips := total_fi * d.fi_w.2.1
    let corp_bonds := total_fi * d.fi_w.2.2
    if treasuries < MIN_ALLOC ∨ tips < MIN_ALLOC ∨ corp_bonds < MIN_ALLOC then none
    else
      let p := normalize
        ⟨pid, us_equities, intl_dev, emerging, treasuries, tips, corp_bonds, d.reit⟩
      if MIN_ALLOC ≤ p.us_equities ∧ MIN_ALLOC ≤ p.intl_dev ∧ MIN_ALLOC ≤ p.emerging ∧
          MIN_ALLOC ≤ p.treasuries ∧ MIN_ALLOC ≤ p.tips ∧ MIN_ALLOC ≤ p.corp_bonds ∧
          MIN_ALLOC ≤ p.reit then
        some p
      else none

/-- The while loop of `generate_random_portfolios` over the supplied draws
(the draw list length plays the role of `max_attempts`). -/
def randomLoop (n : Nat) : List Draw → List Portfolio → List Portfolio
  | [], acc => acc
  | d :: rest, acc =>
    if n ≤ acc.length then acc
    else
      match randomAttempt d ("Random_" ++ pad3 (acc.length + 1)) with
      | some p => randomLoop n rest (acc ++ [p])
      | none => randomLoop n rest acc

/-- `generate_random_portfolios` from `generate_portfolio_grid.py`, with the
numpy draws supplied explicitly. -/
def generate_random_portfolios (n : Nat) (draws : List Draw) : List Portfolio :=
  randomLoop n draws []

end Grid

namespace Proc


theorem mem_of_getLast?_mem {α : Type*} {l : List α} {x : α}
    (h : x ∈ l.getLast?) : x ∈ l := by
  obtain ⟨hne, hx⟩ := List.mem_getLast?_eq_getLast h
  exact hx ▸ List.getLast_mem hne

theorem covered_append_left {bs : List Block} {b : Block} {i : Nat}
    (h : Covered bs i) : Covered (bs ++ [b]) i := by
  obtain ⟨c, hc, h1, h2⟩ := h
  exact ⟨c, List.mem_append_left _ hc, h1, h2⟩

/-- Closing the open table `(s, n)` at row `idx` (because row `idx` is empty or
the grid ends there) yields a well-formed, ordered, covering accumulator. -/
theorem close_block (g : RawGrid) (idx s : Nat) (n : String) (acc : List Block)
    (hinv : Inv g idx (some (s, n)) acc)
    (hend : emptyAt g idx = true ∨ idx = g.length)
    (hidx : idx ≤ g.length) :
    (∀ b ∈ acc ++ [(s, idx - 1, n)], BlockOK g b) ∧
    List.Chain' BlockLt (acc ++ [(s, idx - 1, n)]) ∧
    (∀ b ∈ acc ++ [(s, idx - 1, n)], b.2.1 < idx) ∧
    (∀ i, i < idx → Covered (acc ++ [(s, idx - 1, n)]) i ∨ emptyAt g i = true) := by
  obtain ⟨hOK, hchain, hcur⟩ := hinv
  obtain ⟨hlt, hleft, hrun, hends, hcov⟩ := hcur
  have hspos : 0 < idx := Nat.lt_of_le_of_lt (Nat.zero_le s) hlt
  have hblock : BlockOK g (s, idx - 1, n) := by
    refine ⟨show s ≤ idx - 1 by omega, show idx - 1 < g.length by omega, ?_, hleft, ?_⟩
    · intro i h1 h2
      have h2' : i ≤ idx - 1 := h2
      exact hrun i h1 (by omega)
    · rcases hend with h | h
      · right
        show emptyAt g (idx - 1 + 1) = true
        have he : idx - 1 + 1 = idx := by omega
        rw [he]
        exact h
      · left
        show idx - 1 = g.length - 1
        omega
  refine ⟨?_, ?_, ?_, ?_⟩
  · intro b hb
    rcases List.mem_append.mp hb with h | h
    · exact hOK b h
    · simp only [List.mem_singleton] at h
      exact h ▸ hblock
  · rw [List.chain'_append]
    refine ⟨hchain, List.chain'_singleton _, ?_⟩
    intro x hx y hy
    simp only [List.head?_cons, Option.mem_def, Option.some.injEq] at hy
    subst hy
    exact hends x (mem_of_getLast?_mem hx)
  · intro b hb
    rcases List.mem_append.mp hb with h | h
    · exact Nat.lt_trans (hends b h) hlt
    · simp only [List.mem_singleton] at h
      subst h
      show idx - 1 < idx
      omega
  · intro i hi
    rcases Nat.lt_or_ge i s with h | h
    · exact (hcov i h).imp covered_append_left id
    · exact Or.inl ⟨(s, idx - 1, n), List.mem_append_right _ (by simp), h,
        show i ≤ idx - 1 by omega⟩

/-- Main induction for the boundary detector: from any state satisfying the
loop invariant, `boundariesGo` produces a well-formed outcome. -/
theorem boundariesGo_outcome (g : RawGrid) :
    ∀ (rows : List Row) (idx : Nat) (cur : Option (Nat × String))
      (acc : List Block),
      g.drop idx = rows → idx ≤ g.length → Inv g idx cur acc →
      Outcome g (boundariesGo rows idx cur acc) := by
  intro rows
  induction rows with
  | nil =>
    intro idx cur acc hdrop hidx hinv
    have hlen : g.length ≤ idx := List.drop_eq_nil_iff.mp hdrop
    have hidxlen : idx = g.length := Nat.le_antisymm hidx hlen
    rcases cur with _ | ⟨s, n⟩
    · obtain ⟨hOK, hchain, hleft, hends, hcov⟩ := hinv
      exact ⟨hOK, hchain, fun i hi => hcov i (by omega)⟩
    · have hclose := close_block g idx s n acc hinv (Or.inr hidxlen) hidx
      obtain ⟨hOK', hchain', _, hcov'⟩ := hclose
      exact ⟨hOK', hchain', fun i hi => hcov' i (by omega)⟩
  | cons r rest ih =>
    intro idx cur acc hdrop hidx hinv
    have hget : g[idx]? = some r := by
      rw [← List.head?_drop, hdrop]
      rfl
    have hidxlt : idx < g.length := by
      by_contra hcon
      push_neg at hcon
      have hnil : g.drop idx = [] := List.drop_eq_nil_iff.mpr hcon
      rw [hdrop] at hnil
      cases hnil
    have hdrop' : g.drop (idx + 1) = rest := by
      have h1 : (g.drop idx).drop 1 = g.drop (idx + 1) := List.drop_drop 1 idx g
      rw [hdrop] at h1
      simpa using h1.symm
    have hemp : emptyAt g idx = rowEmpty r := by
      simp [emptyAt, hget]
    obtain ⟨hOK, hchain, hcur⟩ := hinv
    rcases cur with _ | ⟨s, n⟩ <;> rcases hre : rowEmpty r with _ | _ <;>
      simp only [boundariesGo, hre, Bool.false_eq_true, if_false, if_true]
    · -- cur = none, row non-empty: open a new table at idx
      obtain ⟨hleft, hends, hcov⟩ := hcur
      refine ih (idx + 1) _ acc hdrop' (by omega) ⟨hOK, hchain, ?_⟩
      refine ⟨by omega, hleft, ?_, hends, hcov⟩
      intro i h1 h2
      have : i = idx := by omega
      subst this
      rw [hemp, hre]
    · -- cur = none, row empty: stay closed
      obtain ⟨hleft, hends, hcov⟩ := hcur
      refine ih (idx + 1) none acc hdrop' (by omega) ⟨hOK, hchain, ?_⟩
      refine ⟨Or.inr (by simpa using hemp.trans hre), ?_, ?_⟩
      · intro b hb
        exact Nat.lt_trans (hends b hb) (by omega)
      · intro i hi
        rcases Nat.lt_or_ge i idx with h | h
        · exact hcov i h
        · have : i = idx := by omega
          subst this
          exact Or.inr (hemp.trans hre)
    · -- cur = some, row non-empty: keep the table open
      obtain ⟨hlt, hleft, hrun, hends, hcov⟩ := hcur
      refine ih (idx + 1) (some (s, n)) acc hdrop' (by omega) ⟨hOK, hchain, ?_⟩
      refine ⟨by omega, hleft, ?_, hends, hcov⟩
      intro i h1 h2
      rcases Nat.lt_or_ge i idx with h | h
      · exact hrun i h1 h
      · have : i = idx := by omega
        subst this
        rw [hemp, hre]
    · -- cur = some, row empty: close the table at idx - 1
      have hclose := close_block g idx s n acc ⟨hOK, hchain, hcur⟩
        (Or.inl (hemp.trans hre)) (by omega)
      obtain ⟨hOK', hchain', hends', hcov'⟩ := hclose
      refine ih (idx + 1) none _ hdrop' (by omega) ⟨hOK', hchain', ?_⟩
      refine ⟨Or.inr (by simpa using hemp.trans hre), ?_, ?_⟩
      · intro b hb
        exact Nat.lt_trans (hends' b hb) (by omega)
      · intro i hi
        rcases Nat.lt_or_ge i idx with h | h
        · exact hcov' i h
        · have : i = idx := by omega
          subst this
          exact Or.inr (hemp.trans hre)

end Proc

/-- C1: for every RawGrid with at least one non-empty row,
`identify_table_boundaries` returns exactly the maximal runs of consecutive
non-empty rows, in source order: at least one block is returned; every block
`(start, end, name)` is non-empty (`start ≤ end`), lies inside the grid,
consists solely of non-empty rows, and is bounded on both sides by fully-empty
rows or grid edges (so a block still open at the last row closes there, and
consecutive empty rows yield no block); block ranges are pairwise disjoint and
strictly increasing; and every row index of the grid is either inside some
block or an empty separator row. -/
theorem C1_identify_table_boundaries_maximal_runs (g : Proc.RawGrid)
    (hne : ∃ i, i < g.length ∧ Proc.emptyAt g i = false) :
    Proc.identify_table_boundaries g ≠ [] ∧
    (∀ b ∈ Proc.identify_table_boundaries g, Proc.BlockOK g b) ∧
    List.Chain' Proc.BlockLt (Proc.identify_table_boundaries g) ∧
    (∀ i, i < g.length →
      Proc.Covered (Proc.identify_table_boundaries g) i ∨
        Proc.emptyAt g i = true) := by
  have h0 : Proc.Inv g 0 none [] := by
    refine ⟨by simp, List.chain'_nil, Or.inl rfl, by simp, ?_⟩
    intro i hi
    omega
  have h := Proc.boundariesGo_outcome g g 0 none [] (by simp) (Nat.zero_le _) h0
  obtain ⟨hOK, hchain, hcov⟩ := h
  refine ⟨?_, hOK, hchain, hcov⟩
  obtain ⟨i, hi, hine⟩ := hne
  intro hnil
  rcases hcov i hi with h | h
  · obtain ⟨b, hb, _⟩ := h
    rw [Proc.identify_table_boundaries] at hnil
    rw [hnil] at hb
    cases hb
  · rw [hine] at h
    cases h

/-- Witness for C1 at the concrete grid with rows: empty, "A"-row, empty,
"B"-row then "C"-row (block open at the last row). -/
theorem C1_identify_table_boundaries_maximal_runs_witness :
    (∃ i, i < ([[none], [some (Proc.Cell.str "A")], [none],
        [some (Proc.Cell.str "B")], [some (Proc.Cell.str "C")]] :
          Proc.RawGrid).length ∧
      Proc.emptyAt [[none], [some (Proc.Cell.str "A")], [none],
        [some (Proc.Cell.str "B")], [some (Proc.Cell.str "C")]] i = false) ∧
    Proc.identify_table_boundaries [[none], [some (Proc.Cell.str "A")], [none],
        [some (Proc.Cell.str "B")], [some (Proc.Cell.str "C")]] ≠ [] :=
  ⟨⟨1, by decide, by decide⟩,
    (C1_identify_table_boundaries_maximal_runs
      [[none], [some (Proc.Cell.str "A")], [none],
        [some (Proc.Cell.str "B")], [some (Proc.Cell.str "C")]]
      ⟨1, by decide, by decide⟩).1⟩


theorem detect_data_start (b : List Proc.Row) (hd : Nat)
    (hh : (Proc.detect_table_structure b).header_row = some hd) :
    (Proc.detect_table_structure b).data_start_row = some (hd + 1) := by
  unfold Proc.detect_table_structure at hh ⊢
  cases hf : Proc.findHeaderGo b 0 with
  | some idx =>
    simp only [hf] at hh ⊢
    simp at hh ⊢
    omega
  | none =>
    by_cases hb : 0 < b.length
    · simp only [hf] at hh ⊢
      simp [hb] at hh ⊢
      omega
    · simp only [hf] at hh
      simp [hb] at hh

/-- C5: for every non-empty block, `detect_table_structure` picks a header
row and assigns the table type by first-match-wins priority over that header
row's space-joined lowercased text: `allocation` gives allocation; else
`metric` or `performance` gives metrics; else `return` or `year` gives
returns; else `correlation` gives correlation; else unknown.  In particular
a header text containing `allocation` always yields type allocation. -/
theorem C5_detect_table_structure_type_priority (b : List Proc.Row)
    (hb : b ≠ []) :
    ∃ hd, (Proc.detect_table_structure b).header_row = some hd ∧
      (Proc.detect_table_structure b).table_type =
        (if Proc.strContains (Proc.joinedLower (b.getD hd [])) "allocation" then
          Proc.TType.allocation
         else if Proc.strContains (Proc.joinedLower (b.getD hd [])) "metric" ||
             Proc.strContains (Proc.joinedLower (b.getD hd [])) "performance" then
          Proc.TType.metrics
         else if Proc.strContains (Proc.joinedLower (b.getD hd [])) "return" ||
             Proc.strContains (Proc.joinedLower (b.getD hd [])) "year" then
          Proc.TType.returns
         else if Proc.strContains (Proc.joinedLower (b.getD hd [])) "correlation" then
          Proc.TType.correlation
         else Proc.TType.unknown) ∧
      (Proc.strContains (Proc.joinedLower (b.getD hd [])) "allocation" = true →
        (Proc.detect_table_structure b).table_type = Proc.TType.allocation) := by
  have hlen : 0 < b.length := List.length_pos.mpr hb
  obtain ⟨hd, h1, h2⟩ : ∃ hd, (Proc.detect_table_structure b).header_row = some hd ∧
      (Proc.detect_table_structure b).table_type =
        Proc.classifyHeader (Proc.joinedLower (b.getD hd [])) := by
    unfold Proc.detect_table_structure
    cases hf : Proc.findHeaderGo b 0 with
    | some idx => exact ⟨idx, by simp [hf], by simp [hf]⟩
    | none => exact ⟨0, by simp [hf, hlen], by simp [hf, hlen]⟩
  refine ⟨hd, h1, ?_, ?_⟩
  · rw [h2]
    rfl
  · intro ha
    rw [h2]
    unfold Proc.classifyHeader
    simp only [ha, eq_self_iff_true, if_true]

/-- Witness for C5 at a one-row block whose header text contains
`allocation`. -/
theorem C5_detect_table_structure_type_priority_witness :
    ([[some (Proc.Cell.str "Allocation"), some (Proc.Cell.str "x")]] ≠
      ([] : List Proc.Row)) ∧
    (Proc.detect_table_structure
      [[some (Proc.Cell.str "Allocation"), some (Proc.Cell.str "x")]]).table_type =
      Proc.TType.allocation := by
  refine ⟨by decide, ?_⟩
  obtain ⟨hd, h1, _h2, h3⟩ :=
    C5_detect_table_structure_type_priority
      [[some (Proc.Cell.str "Allocation"), some (Proc.Cell.str "x")]] (by decide)
  have h0 : (Proc.detect_table_structure
      [[some (Proc.Cell.str "Allocation"), some (Proc.Cell.str "x")]]).header_row =
      some 0 := by decide
  have hhd : hd = 0 := by
    rw [h0] at h1
    simpa using h1.symm
  subst hhd
  exact h3 (by decide)

theorem kvGo_eq_append : ∀ (b : List Proc.Row) (acc : List (Proc.Cell × Option Proc.Cell)),
    Proc.kvGo b acc = acc ++ Proc.kvGo b [] := by
  intro b
  induction b with
  | nil => intro acc; simp [Proc.kvGo]
  | cons r rest ih =>
    intro acc
    cases hd : Proc.dropna r with
    | nil =>
      simp only [Proc.kvGo, hd]
      exact ih acc
    | cons k tl =>
      cases tl with
      | nil =>
        simp only [Proc.kvGo, hd, List.nil_append]
        rw [ih (acc ++ [(k, none)]), ih [(k, none)]]
        simp
      | cons v tl2 =>
        simp only [Proc.kvGo, hd, List.nil_append]
        rw [ih (acc ++ [(k, some v)]), ih [(k, some v)]]
        simp

/-- C7: when the detected column count is at most 2 and the type is unknown,
extraction takes the key-value branch; and for each row of the block, a row
with two or more non-empty cells yields exactly the pair (first non-empty,
second non-empty), a row with exactly one non-empty cell yields exactly the
pair (that cell, none), and a fully-empty row contributes nothing. -/
theorem C7_key_value_branch :
    (∀ b : List Proc.Row,
      (Proc.detect_table_structure b).num_columns ≤ 2 →
      (Proc.detect_table_structure b).table_type = Proc.TType.unknown →
      Proc.extract_block b = Proc.ParsedTable.kv (Proc.parse_key_value_table b)) ∧
    (∀ (r : Proc.Row) (rest : List Proc.Row) (k v : Proc.Cell) (tl : List Proc.Cell),
      Proc.dropna r = k :: v :: tl →
      Proc.parse_key_value_table (r :: rest) =
        (k, some v) :: Proc.parse_key_value_table rest) ∧
    (∀ (r : Proc.Row) (rest : List Proc.Row) (k : Proc.Cell),
      Proc.dropna r = [k] →
      Proc.parse_key_value_table (r :: rest) =
        (k, none) :: Proc.parse_key_value_table rest) ∧
    (∀ (r : Proc.Row) (rest : List Proc.Row),
      Proc.dropna r = [] →
      Proc.parse_key_value_table (r :: rest) = Proc.parse_key_value_table rest) := by
  refine ⟨?_, ?_, ?_, ?_⟩
  · intro b h1 h2
    unfold Proc.extract_block
    simp [h1, h2]
  · intro r rest k v tl hd
    unfold Proc.parse_key_value_table
    simp only [Proc.kvGo, hd, List.nil_append]
    rw [kvGo_eq_append rest [(k, some v)]]
    simp
  · intro r rest k hd
    unfold Proc.parse_key_value_table
    simp only [Proc.kvGo, hd, List.nil_append]
    rw [kvGo_eq_append rest [(k, none)]]
    simp
  · intro r rest hd
    unfold Proc.parse_key_value_table
    simp only [Proc.kvGo, hd]

/-- Witness for C7: a one-row key-value block holding a single non-empty cell
yields one pair with value none. -/
theorem C7_key_value_branch_witness :
    Proc.dropna [none, some (Proc.Cell.str "Total")] = [Proc.Cell.str "Total"] ∧
    Proc.parse_key_value_table [[none, some (Proc.Cell.str "Total")]] =
      [(Proc.Cell.str "Total", none)] := by
  refine ⟨by decide, ?_⟩
  have h := C7_key_value_branch.2.2.1 [none, some (Proc.Cell.str "Total")] []
    (Proc.Cell.str "Total") (by decide)
  simpa [Proc.parse_key_value_table, Proc.kvGo] using h

theorem range_filter_lt3 : ∀ n : Nat,
    (List.range (3 + n)).filter (fun j => decide (j < 3)) = [0, 1, 2] := by
  intro n
  induction n with
  | zero => decide
  | succ m ih =>
    have h : 3 + (m + 1) = (3 + m) + 1 := by omega
    have h2 : ¬(3 + m < 3) := by omega
    rw [h, List.range_succ, List.filter_append, ih]
    simp [h2]

theorem headerColumns_cons3 (A B C : String) (k : Nat) :
    ∃ tail : List String,
      Proc.headerColumns ([some (Proc.Cell.str A), some (Proc.Cell.str B),
          some (Proc.Cell.str C)] ++ List.replicate k none) = A :: B :: C :: tail ∧
        tail.length = k := by
  refine ⟨(List.enumFrom 3 (List.replicate k (none : Option Proc.Cell))).map (fun p =>
      match p.2 with
      | some c => Proc.cellStr c
      | none => "Column_" ++ toString p.1), ?_, ?_⟩
  · simp [Proc.headerColumns, List.enum, List.enumFrom_cons, Proc.cellStr]
  · simp

theorem getD_three_pad (x y z : Option Proc.Cell) (k j : Nat) :
    ([x, y, z] ++ List.replicate k (none : Option Proc.Cell)).getD j none =
      if j = 0 then x else if j = 1 then y else if j = 2 then z else none := by
  match j with
  | 0 => rfl
  | 1 => rfl
  | 2 => rfl
  | (m + 3) =>
    have h3 : ¬(m + 3 = 0) := by omega
    have h4 : ¬(m + 3 = 1) := by omega
    have h5 : ¬(m + 3 = 2) := by omega
    simp only [h3, h4, h5, if_false]
    rw [List.getD_eq_getElem?_getD,
      List.getElem?_append_right (by simp)]
    simp only [List.length_cons, List.length_nil]
    rw [List.getElem?_replicate]
    split <;> rfl

theorem keepCols_eq (c1 c2 c3 d1 d2 d3 : Proc.Cell) (k : Nat) :
    ∀ j ∈ List.range (3 + k),
      (!Proc.colIsEmpty [[some c1, some c2, some c3] ++ List.replicate k none,
          [some d1, some d2, some d3] ++ List.replicate k none] j) = decide (j < 3) := by
  intro j _
  have h1 := getD_three_pad (some c1) (some c2) (some c3) k j
  have h2 := getD_three_pad (some d1) (some d2) (some d3) k j
  unfold Proc.colIsEmpty
  simp only [List.all_cons, List.all_nil, h1, h2]
  match j with
  | 0 => simp
  | 1 => simp
  | 2 => simp
  | (m + 3) =>
    have h3 : ¬(m + 3 = 0) := by omega
    have h4 : ¬(m + 3 = 1) := by omega
    have h5 : ¬(m + 3 = 2) := by omega
    have h6 : ¬(m + 3 < 3) := by omega
    simp [h3, h4, h5, h6]

theorem tabular_no_empty (t : Proc.Table) :
    (∀ r ∈ (Proc.dropEmptyRows (Proc.dropEmptyCols t)).rows, Proc.rowAny r = true) ∧
    (∀ jj, jj < (Proc.dropEmptyRows (Proc.dropEmptyCols t)).cols.length →
      ∃ r ∈ (Proc.dropEmptyRows (Proc.dropEmptyCols t)).rows,
        (r.getD jj none).isSome = true) := by
  constructor
  · intro r hr
    exact (List.mem_filter.mp hr).2
  · intro jj hjj
    have hjk : jj <
        ((List.range t.cols.length).filter (fun j => !Proc.colIsEmpty t.rows j)).length := by
      simpa [Proc.dropEmptyRows, Proc.dropEmptyCols] using hjj
    set keep := (List.range t.cols.length).filter (fun j => !Proc.colIsEmpty t.rows j)
      with hkeepdef
    have hjmem : keep[jj] ∈ keep := List.getElem_mem hjk
    have hcol : (!Proc.colIsEmpty t.rows keep[jj]) = true :=
      (List.mem_filter.mp hjmem).2
    have hcol' : Proc.colIsEmpty t.rows keep[jj] = false := by
      simpa using hcol
    have hex : ∃ r ∈ t.rows, ((r.getD keep[jj] none).isNone = false) := by
      by_contra hcon
      push_neg at hcon
      have hall : Proc.colIsEmpty t.rows keep[jj] = true :=
        List.all_eq_true.mpr (fun r hr => by
          have := hcon r hr
          cases hb : (r.getD keep[jj] none).isNone with
          | false => exact absurd hb this
          | true => rfl)
      rw [hall] at hcol'
      cases hcol'
    obtain ⟨r, hrmem, hrj⟩ := hex
    have hsj : (r.getD keep[jj] none).isSome = true := by
      cases hcase : r.getD keep[jj] none with
      | none => rw [hcase] at hrj; simp at hrj
      | some c => simp
    have hmrlen : jj < (keep.map (fun j => r.getD j none)).length := by
      simpa using hjk
    have hmr : (keep.map (fun j => r.getD j none)).getD jj none =
        r.getD keep[jj] none := by
      rw [List.getD_eq_getElem _ _ hmrlen, List.getElem_map]
    have hsome : ((keep.map (fun j => r.getD j none)).getD jj none).isSome = true := by
      rw [hmr]; exact hsj
    have hany : Proc.rowAny (keep.map (fun j => r.getD j none)) = true := by
      refine List.any_eq_true.mpr ⟨(keep.map (fun j => r.getD j none))[jj],
        List.getElem_mem hmrlen, ?_⟩
      rw [← List.getD_eq_getElem _ none hmrlen]
      exact hsome
    refine ⟨keep.map (fun j => r.getD j none), ?_, hsome⟩
    show _ ∈ ((t.rows.map fun r => keep.map (fun j => r.getD j none)).filter Proc.rowAny)
    exact List.mem_filter.mpr ⟨List.mem_map_of_mem _ hrmem, hany⟩

theorem parse_tabular_no_empty (b : List Proc.Row) (st : Proc.TableStructure) :
    (∀ r ∈ (Proc.parse_tabular_data b st).rows, Proc.rowAny r = true) ∧
    (∀ jj, jj < (Proc.parse_tabular_data b st).cols.length →
      ∃ r ∈ (Proc.parse_tabular_data b st).rows, (r.getD jj none).isSome = true) := by
  unfold Proc.parse_tabular_data
  cases hh : st.header_row with
  | none => simp
  | some h =>
    cases hds : st.data_start_row with
    | none => simp
    | some ds =>
      simp only
      split
      · simp
      · exact tabular_no_empty _

theorem parse_tabular_round_trip (b : List Proc.Row) (h k : Nat) (A B C : String)
    (c1 c2 c3 d1 d2 d3 : Proc.Cell)
    (hh : (Proc.detect_table_structure b).header_row = some h)
    (hhr : b.getD h [] = [some (Proc.Cell.str A), some (Proc.Cell.str B),
      some (Proc.Cell.str C)] ++ List.replicate k none)
    (hdata : b.drop (h + 1) = [[some c1, some c2, some c3] ++ List.replicate k none,
      [some d1, some d2, some d3] ++ List.replicate k none]) :
    Proc.parse_tabular_data b (Proc.detect_table_structure b) =
      ⟨[A, B, C], [[some c1, some c2, some c3], [some d1, some d2, some d3]]⟩ := by
  have hds := detect_data_start b h hh
  obtain ⟨tail, htail, hlen⟩ := headerColumns_cons3 A B C k
  unfold Proc.parse_tabular_data
  simp only [hh, hds]
  rw [hhr, htail, hdata]
  have hclen : (A :: B :: C :: tail).length = 3 + k := by
    simp [hlen]
    omega
  have hr1any : Proc.rowAny ([some c1, some c2, some c3] ++ List.replicate k none) = true := by
    simp [Proc.rowAny]
  have hr2any : Proc.rowAny ([some d1, some d2, some d3] ++ List.replicate k none) = true := by
    simp [Proc.rowAny]
  have htr1 : Proc.truncTo ([some c1, some c2, some c3] ++ List.replicate k none)
      (A :: B :: C :: tail).length = [some c1, some c2, some c3] ++ List.replicate k none := by
    unfold Proc.truncTo
    apply List.take_of_length_le
    simp [hclen]
    omega
  have htr2 : Proc.truncTo ([some d1, some d2, some d3] ++ List.replicate k none)
      (A :: B :: C :: tail).length = [some d1, some d2, some d3] ++ List.replicate k none := by
    unfold Proc.truncTo
    apply List.take_of_length_le
    simp [hclen]
    omega
  rw [List.filter_cons_of_pos hr1any, List.filter_cons_of_pos hr2any, List.filter_nil]
  rw [List.map_cons, List.map_cons, List.map_nil, htr1, htr2]
  rw [if_neg (by simp)]
  unfold Proc.dropEmptyCols
  simp only
  rw [hclen]
  rw [List.filter_congr (keepCols_eq c1 c2 c3 d1 d2 d3 k), range_filter_lt3]
  unfold Proc.dropEmptyRows
  simp only [List.map_cons, List.map_nil]
  simp [List.getD_cons_zero, List.getD_cons_succ, Proc.rowAny, List.filter_cons]

/-- C6: (round trip) for every block whose detected header row has exactly the
three non-empty cells A, B, C and whose data region is exactly two rows fully
populated in those three columns and empty elsewhere, `parse_tabular_data`
returns exactly the columns A, B, C and exactly those two data rows; and
(assembly invariant) in any `parse_tabular_data` result, every retained row
has a non-empty cell and every retained column has a non-empty cell in some
retained row (entirely-empty rows and columns are dropped). -/
theorem C6_parse_tabular_data_round_trip_and_drops :
    (∀ (b : List Proc.Row) (h k : Nat) (A B C : String) (c1 c2 c3 d1 d2 d3 : Proc.Cell),
      (Proc.detect_table_structure b).header_row = some h →
      b.getD h [] = [some (Proc.Cell.str A), some (Proc.Cell.str B),
        some (Proc.Cell.str C)] ++ List.replicate k none →
      b.drop (h + 1) = [[some c1, some c2, some c3] ++ List.replicate k none,
        [some d1, some d2, some d3] ++ List.replicate k none] →
      Proc.parse_tabular_data b (Proc.detect_table_structure b) =
        ⟨[A, B, C], [[some c1, some c2, some c3], [some d1, some d2, some d3]]⟩) ∧
    (∀ (b : List Proc.Row) (st : Proc.TableStructure),
      (∀ r ∈ (Proc.parse_tabular_data b st).rows, Proc.rowAny r = true) ∧
      (∀ jj, jj < (Proc.parse_tabular_data b st).cols.length →
        ∃ r ∈ (Proc.parse_tabular_data b st).rows, (r.getD jj none).isSome = true)) :=
  ⟨fun b h k A B C c1 c2 c3 d1 d2 d3 hh hhr hdata =>
    parse_tabular_round_trip b h k A B C c1 c2 c3 d1 d2 d3 hh hhr hdata,
   parse_tabular_no_empty⟩

/-- Witness for C6 at a concrete 3-column block with header "Metric"/"B"/"C"
and two fully-populated numeric data rows. -/
theorem C6_parse_tabular_data_round_trip_and_drops_witness :
    (Proc.detect_table_structure
        [[some (Proc.Cell.str "Metric"), some (Proc.Cell.str "B"), some (Proc.Cell.str "C")],
         [some (Proc.Cell.num 1), some (Proc.Cell.num 2), some (Proc.Cell.num 3)],
         [some (Proc.Cell.num 4), some (Proc.Cell.num 5), some (Proc.Cell.num 6)]]).header_row =
      some 0 ∧
    Proc.parse_tabular_data
        [[some (Proc.Cell.str "Metric"), some (Proc.Cell.str "B"), some (Proc.Cell.str "C")],
         [some (Proc.Cell.num 1), some (Proc.Cell.num 2), some (Proc.Cell.num 3)],
         [some (Proc.Cell.num 4), some (Proc.Cell.num 5), some (Proc.Cell.num 6)]]
        (Proc.detect_table_structure
        [[some (Proc.Cell.str "Metric"), some (Proc.Cell.str "B"), some (Proc.Cell.str "C")],
         [some (Proc.Cell.num 1), some (Proc.Cell.num 2), some (Proc.Cell.num 3)],
         [some (Proc.Cell.num 4), some (Proc.Cell.num 5), some (Proc.Cell.num 6)]]) =
      ⟨["Metric", "B", "C"],
       [[some (Proc.Cell.num 1), some (Proc.Cell.num 2), some (Proc.Cell.num 3)],
        [some (Proc.Cell.num 4), some (Proc.Cell.num 5), some (Proc.Cell.num 6)]]⟩ :=
  ⟨by decide,
   C6_parse_tabular_data_round_trip_and_drops.1
     [[some (Proc.Cell.str "Metric"), some (Proc.Cell.str "B"), some (Proc.Cell.str "C")],
      [some (Proc.Cell.num 1), some (Proc.Cell.num 2), some (Proc.Cell.num 3)],
      [some (Proc.Cell.num 4), some (Proc.Cell.num 5), some (Proc.Cell.num 6)]]
     0 0 "Metric" "B" "C"
     (Proc.Cell.num 1) (Proc.Cell.num 2) (Proc.Cell.num 3)
     (Proc.Cell.num 4) (Proc.Cell.num 5) (Proc.Cell.num 6)
     (by decide) (by decide) (by decide)⟩

theorem chosenKeysGo_prefix (g : Proc.RawGrid) :
    ∀ (l : List (Nat × Proc.Block)) (ks : List String),
      ∃ t, Proc.chosenKeysGo g l ks = ks ++ t := by
  intro l
  induction l with
  | nil => intro ks; exact ⟨[], by simp [Proc.chosenKeysGo]⟩
  | cons p rest ih =>
    intro ks
    obtain ⟨num, b⟩ := p
    simp only [Proc.chosenKeysGo]
    split
    · exact ih ks
    · obtain ⟨t, ht⟩ := ih (ks ++ [if ks.any (fun k => k == Proc.trimStr b.2.2) then
        Proc.trimStr b.2.2 ++ "_" ++ toString num else Proc.trimStr b.2.2])
      exact ⟨_, by rw [ht, List.append_assoc]⟩

theorem chosenKeysGo_length (g : Proc.RawGrid) :
    ∀ (l : List (Nat × Proc.Block)) (ks : List String),
      (Proc.chosenKeysGo g l ks).length =
        ks.length + (l.filter (fun p =>
          !Proc.ptEmpty (Proc.extract_block (Proc.blockSub g p.2)))).length := by
  intro l
  induction l with
  | nil => intro ks; simp [Proc.chosenKeysGo]
  | cons p rest ih =>
    intro ks
    obtain ⟨num, b⟩ := p
    simp only [Proc.chosenKeysGo, List.filter_cons]
    cases he : Proc.ptEmpty (Proc.extract_block (Proc.blockSub g b)) with
    | true => simp only [he, if_true, Bool.not_true, if_false]; exact ih ks
    | false =>
      simp only [he, Bool.false_eq_true, if_false, Bool.not_false, if_true]
      rw [ih]
      simp only [List.length_append, List.length_cons, List.length_nil,
        List.length_singleton]
      omega

theorem any_map_fst {α β : Type*} (l : List (α × β)) (p : α → Bool) :
    (l.map Prod.fst).any p = l.any (fun kv => p kv.1) := by
  induction l with
  | nil => rfl
  | cons x xs ih => simp [List.any_cons, ih]

theorem parseTablesGo_keys (g : Proc.RawGrid) :
    ∀ (l : List (Nat × Proc.Block)) (acc : List (String × Proc.ParsedTable)),
      (Proc.chosenKeysGo g l (acc.map Prod.fst)).Nodup →
      (Proc.parseTablesGo g l acc).map Prod.fst =
        Proc.chosenKeysGo g l (acc.map Prod.fst) := by
  intro l
  induction l with
  | nil => intro acc _; simp [Proc.parseTablesGo, Proc.chosenKeysGo]
  | cons p rest ih =>
    intro acc hnd
    obtain ⟨num, b⟩ := p
    have hdc : Proc.dictContains acc (Proc.trimStr b.2.2) =
        (acc.map Prod.fst).any (fun k => k == Proc.trimStr b.2.2) := by
      unfold Proc.dictContains
      rw [any_map_fst]
    simp only [Proc.parseTablesGo, Proc.chosenKeysGo] at hnd ⊢
    cases he : Proc.ptEmpty (Proc.extract_block (Proc.blockSub g b)) with
    | true =>
      simp only [he, if_true] at hnd ⊢
      exact ih acc hnd
    | false =>
      simp only [he, if_false, Bool.false_eq_true] at hnd ⊢
      set key := if (acc.map Prod.fst).any (fun k => k == Proc.trimStr b.2.2) then
        Proc.trimStr b.2.2 ++ "_" ++ toString num else Proc.trimStr b.2.2 with hkey
      have hkeyP : (if Proc.dictContains acc (Proc.trimStr b.2.2) then
          Proc.trimStr b.2.2 ++ "_" ++ toString num else Proc.trimStr b.2.2) = key := by
        rw [hdc]
      have hnotmem : key ∉ acc.map Prod.fst := by
        obtain ⟨t, ht⟩ := chosenKeysGo_prefix g rest (acc.map Prod.fst ++ [key])
        rw [ht] at hnd
        have h1 : (acc.map Prod.fst ++ [key]).Nodup := hnd.of_append_left
        intro hmem
        have := List.disjoint_of_nodup_append h1
        exact this hmem (by simp)
      have hdins : Proc.dictInsert acc key (Proc.extract_block (Proc.blockSub g b)) =
          acc ++ [(key, Proc.extract_block (Proc.blockSub g b))] := by
        unfold Proc.dictInsert
        rw [if_neg]
        intro hc
        apply hnotmem
        obtain ⟨kv, hkv, hbeq⟩ := List.any_eq_true.mp hc
        have : kv.1 = key := by simpa using hbeq
        exact this ▸ List.mem_map_of_mem Prod.fst hkv
      rw [hkeyP, hdins]
      have hmapapp : (acc ++ [(key, Proc.extract_block (Proc.blockSub g b))]).map Prod.fst =
          acc.map Prod.fst ++ [key] := by simp
      rw [← hmapapp] at hnd ⊢
      exact ih _ hnd

theorem enumFrom_filter_snd_length {q : Proc.Block → Bool} :
    ∀ (bs : List Proc.Block) (n : Nat),
      (((List.enumFrom n bs).map (fun p => (p.1 + 1, p.2))).filter
        (fun p => q p.2)).length = (bs.filter q).length := by
  intro bs
  induction bs with
  | nil => intro n; simp
  | cons b rest ih =>
    intro n
    simp only [List.enumFrom_cons, List.map_cons, List.filter_cons]
    cases hq : q b with
    | true => simp only [hq, if_true]; simp [ih]
    | false => simp only [hq, Bool.false_eq_true, if_false]; exact ih (n + 1)

/-- C10 counterexample: in the grid whose three non-empty blocks are named
"T", "T_3" and "T", the third block's suffixed key `T_3` collides with the
second block's key, the second block's stored table is replaced, and the
mapping holds 2 entries for 3 non-empty extracted blocks — refuting the claim
that a later duplicate-named block is always stored under its own distinct
key with one entry per non-empty block. -/
theorem C10_parse_all_tables_keys_counterexample :
    (Proc.parse_all_tables [[some (Proc.Cell.str "T")], [none],
        [some (Proc.Cell.str "T_3")], [none], [some (Proc.Cell.str "T")]]).length = 2 ∧
    Proc.nonEmptyBlockCount [[some (Proc.Cell.str "T")], [none],
        [some (Proc.Cell.str "T_3")], [none], [some (Proc.Cell.str "T")]] = 3 ∧
    Proc.parse_all_tables [[some (Proc.Cell.str "T")], [none],
        [some (Proc.Cell.str "T_3")], [none], [some (Proc.Cell.str "T")]] =
      [("T", Proc.ParsedTable.kv [(Proc.Cell.str "T", none)]),
       ("T_3", Proc.ParsedTable.kv [(Proc.Cell.str "T", none)])] :=
  ⟨by decide, by decide, by decide⟩

/-- C10 (amended): `parse_all_tables` stores each non-empty block under a key
chosen as the cleaned name, or the name suffixed with the 1-based block
number when the cleaned name is already present; provided those chosen keys
are pairwise distinct, no stored table is replaced: the mapping's keys are
exactly the chosen keys in block order and the number of entries equals the
number of non-empty extracted blocks. -/
theorem C10_parse_all_tables_keys (g : Proc.RawGrid)
    (hnd : (Proc.chosenKeys g).Nodup) :
    (Proc.parse_all_tables g).map Prod.fst = Proc.chosenKeys g ∧
    (Proc.parse_all_tables g).length = Proc.nonEmptyBlockCount g := by
  have h1 := parseTablesGo_keys g
    ((Proc.identify_table_boundaries g).enum.map (fun p => (p.1 + 1, p.2))) []
    (by simpa [Proc.chosenKeys] using hnd)
  have hmain : (Proc.parse_all_tables g).map Prod.fst = Proc.chosenKeys g := by
    simpa [Proc.parse_all_tables, Proc.chosenKeys] using h1
  refine ⟨hmain, ?_⟩
  have h2 : (Proc.parse_all_tables g).length = (Proc.chosenKeys g).length := by
    rw [← hmain]
    simp
  rw [h2]
  unfold Proc.chosenKeys
  rw [chosenKeysGo_length]
  simp only [List.length_nil, Nat.zero_add]
  unfold Proc.nonEmptyBlockCount
  rw [← enumFrom_filter_snd_length (Proc.identify_table_boundaries g) 0]
  rfl

/-- Witness for the amended C10 at a grid with two distinctly-named blocks. -/
theorem C10_parse_all_tables_keys_witness :
    (Proc.chosenKeys [[some (Proc.Cell.str "A")], [none],
        [some (Proc.Cell.str "B")]]).Nodup ∧
    (Proc.parse_all_tables [[some (Proc.Cell.str "A")], [none],
        [some (Proc.Cell.str "B")]]).length =
      Proc.nonEmptyBlockCount [[some (Proc.Cell.str "A")], [none],
        [some (Proc.Cell.str "B")]] :=
  ⟨by decide, (C10_parse_all_tables_keys
    [[some (Proc.Cell.str "A")], [none], [some (Proc.Cell.str "B")]] (by decide)).2⟩

/-- C4: metadata generation emits exactly one record per asset row whose
weight cell is present and strictly positive, storing the weight divided by
100, and emits no record for zero, negative, or missing weights; in
particular percentages [50, 30, 20] for one portfolio column yield exactly
three records with weights [0.5, 0.3, 0.2]. -/
theorem C4_generate_batch_metadata_weights :
    (∀ (r : Consol.CsvRow) (rest : List Consol.CsvRow) (u : Nat) (col : String) (w : ℚ),
      r.cells col = some w → 0 < w →
      Consol.metaRowsFor (r :: rest) u col =
        ⟨u, col, r.asset, w / 100⟩ :: Consol.metaRowsFor rest u col) ∧
    (∀ (r : Consol.CsvRow) (rest : List Consol.CsvRow) (u : Nat) (col : String) (w : ℚ),
      r.cells col = some w → ¬0 < w →
      Consol.metaRowsFor (r :: rest) u col = Consol.metaRowsFor rest u col) ∧
    (∀ (r : Consol.CsvRow) (rest : List Consol.CsvRow) (u : Nat) (col : String),
      r.cells col = none →
      Consol.metaRowsFor (r :: rest) u col = Consol.metaRowsFor rest u col) ∧
    (Consol.generate_batch_metadata
      ⟨["Asset_Number", "Asset_Description", "Portfolio_1"],
       [⟨"A", fun c => if c = "Portfolio_1" then some 50 else none⟩,
        ⟨"B", fun c => if c = "Portfolio_1" then some 30 else none⟩,
        ⟨"C", fun c => if c = "Portfolio_1" then some 20 else none⟩]⟩ [] 0).1 =
      [⟨0, "Portfolio_1", "A", 1/2⟩, ⟨0, "Portfolio_1", "B", 3/10⟩,
       ⟨0, "Portfolio_1", "C", 1/5⟩] := by
  refine ⟨?_, ?_, ?_, ?_⟩
  · intro r rest u col w hc hw
    unfold Consol.metaRowsFor
    rw [List.filterMap_cons]
    simp [hc, hw]
  · intro r rest u col w hc hw
    unfold Consol.metaRowsFor
    rw [List.filterMap_cons]
    simp [hc, hw]
  · intro r rest u col hc
    unfold Consol.metaRowsFor
    rw [List.filterMap_cons]
    simp [hc]
  · have hcols : Consol.portfolioCols
        ["Asset_Number", "Asset_Description", "Portfolio_1"] = ["Portfolio_1"] := by
      decide
    unfold Consol.generate_batch_metadata
    rw [hcols]
    unfold Consol.genMetaGo
    unfold Consol.metaRowsFor
    simp only [List.lookup, List.filterMap_cons, List.filterMap_nil]
    norm_num
    rfl

theorem lookup_append_left {β : Type*} :
    ∀ (m l : List (String × β)) (k : String),
      (m.lookup k).isSome → (m ++ l).lookup k = m.lookup k := by
  intro m l k
  induction m with
  | nil => intro h; simp [List.lookup] at h
  | cons kv rest ih =>
    intro h
    obtain ⟨a, b⟩ := kv
    cases hbeq : (k == a) with
    | true => simp [List.lookup, hbeq]
    | false =>
      simp only [List.lookup, hbeq, List.cons_append] at h ⊢
      exact ih h

theorem lookup_append_right {β : Type*} :
    ∀ (m l : List (String × β)) (k : String),
      m.lookup k = none → (m ++ l).lookup k = l.lookup k := by
  intro m l k
  induction m with
  | nil => intro _; rfl
  | cons kv rest ih =>
    intro h
    obtain ⟨a, b⟩ := kv
    cases hbeq : (k == a) with
    | true => simp [List.lookup, hbeq] at h
    | false =>
      simp only [List.lookup, hbeq, List.cons_append] at h ⊢
      exact ih h

theorem lookup_none_not_mem {β : Type*} :
    ∀ (m : List (String × β)) (k : String),
      m.lookup k = none → k ∉ m.map Prod.fst := by
  intro m k
  induction m with
  | nil => intro _ h; simp at h
  | cons kv rest ih =>
    intro h hmem
    obtain ⟨a, b⟩ := kv
    cases hbeq : (k == a) with
    | true => simp [List.lookup, hbeq] at h
    | false =>
      simp only [List.lookup, hbeq] at h
      simp only [List.map_cons, List.mem_cons] at hmem
      rcases hmem with heq | hmem
      · rw [heq] at hbeq
        simp at hbeq
      · exact ih h hmem

theorem genMetaGo_map_lookup (rows : List Consol.CsvRow) :
    ∀ (cols : List String) (acc : List Consol.MetaRow) (m : Consol.UuidMap)
      (fresh : Nat) (k : String),
      (m.lookup k).isSome →
      ((Consol.genMetaGo rows cols acc m fresh).2.1).lookup k = m.lookup k := by
  intro cols
  induction cols with
  | nil => intro acc m fresh k _; rfl
  | cons col rest ih =>
    intro acc m fresh k hk
    cases hl : m.lookup col with
    | some u =>
      simp only [Consol.genMetaGo, hl]
      exact ih _ m fresh k hk
    | none =>
      simp only [Consol.genMetaGo, hl]
      have hma : ((m ++ [(col, fresh)]).lookup k) = m.lookup k :=
        lookup_append_left m [(col, fresh)] k hk
      rw [ih _ (m ++ [(col, fresh)]) (fresh + 1) k (by rw [hma]; exact hk)]
      exact hma

theorem genMetaGo_lookup_isSome (rows : List Consol.CsvRow) :
    ∀ (cols : List String) (acc : List Consol.MetaRow) (m : Consol.UuidMap)
      (fresh : Nat) (k : String),
      (m.lookup k).isSome →
      (((Consol.genMetaGo rows cols acc m fresh).2.1).lookup k).isSome := by
  intro cols acc m fresh k hk
  rw [genMetaGo_map_lookup rows cols acc m fresh k hk]
  exact hk

theorem genMetaGo_mem_isSome (rows : List Consol.CsvRow) :
    ∀ (cols : List String) (acc : List Consol.MetaRow) (m : Consol.UuidMap)
      (fresh : Nat) (col : String), col ∈ cols →
      (((Consol.genMetaGo rows cols acc m fresh).2.1).lookup col).isSome := by
  intro cols
  induction cols with
  | nil => intro acc m fresh col h; simp at h
  | cons c rest ih =>
    intro acc m fresh col hmem
    rcases List.mem_cons.mp hmem with heq | hmem'
    · subst heq
      cases hl : m.lookup col with
      | some u =>
        simp only [Consol.genMetaGo, hl]
        exact genMetaGo_lookup_isSome rows rest _ m fresh col (by rw [hl]; rfl)
      | none =>
        simp only [Consol.genMetaGo, hl]
        refine genMetaGo_lookup_isSome rows rest _ _ (fresh + 1) col ?_
        rw [lookup_append_right m [(col, fresh)] col hl]
        simp [List.lookup]
    · cases hl : m.lookup c with
      | some u =>
        simp only [Consol.genMetaGo, hl]
        exact ih _ m fresh col hmem'
      | none =>
        simp only [Consol.genMetaGo, hl]
        exact ih _ _ (fresh + 1) col hmem'

theorem genMetaGo_nodup_keys (rows : List Consol.CsvRow) :
    ∀ (cols : List String) (acc : List Consol.MetaRow) (m : Consol.UuidMap)
      (fresh : Nat),
      (m.map Prod.fst).Nodup →
      (((Consol.genMetaGo rows cols acc m fresh).2.1).map Prod.fst).Nodup := by
  intro cols
  induction cols with
  | nil => intro acc m fresh h; exact h
  | cons col rest ih =>
    intro acc m fresh hnd
    cases hl : m.lookup col with
    | some u =>
      simp only [Consol.genMetaGo, hl]
      exact ih _ m fresh hnd
    | none =>
      simp only [Consol.genMetaGo, hl]
      refine ih _ _ (fresh + 1) ?_
      rw [List.map_append]
      refine List.nodup_append.mpr ⟨hnd, by simp, ?_⟩
      intro x hx hx2
      simp only [List.map_cons, List.map_nil, List.mem_singleton] at hx2
      exact lookup_none_not_mem m col hl (hx2 ▸ hx)

theorem genMetaGo_stable (rows : List Consol.CsvRow) :
    ∀ (cols : List String) (acc : List Consol.MetaRow) (m : Consol.UuidMap)
      (fresh : Nat),
      (∀ c ∈ cols, (m.lookup c).isSome) →
      (Consol.genMetaGo rows cols acc m fresh).2.1 = m ∧
        (Consol.genMetaGo rows cols acc m fresh).2.2 = fresh := by
  intro cols
  induction cols with
  | nil => intro acc m fresh _; exact ⟨rfl, rfl⟩
  | cons col rest ih =>
    intro acc m fresh hall
    cases hl : m.lookup col with
    | some u =>
      simp only [Consol.genMetaGo, hl]
      exact ih _ m fresh (fun c hc => hall c (List.mem_cons_of_mem _ hc))
    | none =>
      have := hall col (List.mem_cons_self _ _)
      rw [hl] at this
      simp at this

theorem genMetaGo_rows_append (rows : List Consol.CsvRow) :
    ∀ (cols : List String) (acc : List Consol.MetaRow) (m : Consol.UuidMap)
      (fresh : Nat),
      (Consol.genMetaGo rows cols acc m fresh).1 =
        acc ++ (Consol.genMetaGo rows cols [] m fresh).1 := by
  intro cols
  induction cols with
  | nil => intro acc m fresh; simp [Consol.genMetaGo]
  | cons col rest ih =>
    intro acc m fresh
    cases hl : m.lookup col with
    | some u =>
      simp only [Consol.genMetaGo, hl, List.nil_append]
      rw [ih (acc ++ Consol.metaRowsFor rows u col), ih (Consol.metaRowsFor rows u col)]
      simp
    | none =>
      simp only [Consol.genMetaGo, hl, List.nil_append]
      rw [ih (acc ++ Consol.metaRowsFor rows fresh col),
        ih (Consol.metaRowsFor rows fresh col)]
      simp

theorem metaRowsFor_cons_pos (r : Consol.CsvRow) (rest : List Consol.CsvRow)
    (u : Nat) (col : String) (w : ℚ) (hc : r.cells col = some w) (hw : 0 < w) :
    Consol.metaRowsFor (r :: rest) u col =
      ⟨u, col, r.asset, w / 100⟩ :: Consol.metaRowsFor rest u col := by
  unfold Consol.metaRowsFor
  rw [List.filterMap_cons]
  simp [hc, hw]

theorem metaRowsFor_cons_nonpos (r : Consol.CsvRow) (rest : List Consol.CsvRow)
    (u : Nat) (col : String) (w : ℚ) (hc : r.cells col = some w) (hw : ¬0 < w) :
    Consol.metaRowsFor (r :: rest) u col = Consol.metaRowsFor rest u col := by
  unfold Consol.metaRowsFor
  rw [List.filterMap_cons]
  simp [hc, hw]

theorem metaRowsFor_cons_none (r : Consol.CsvRow) (rest : List Consol.CsvRow)
    (u : Nat) (col : String) (hc : r.cells col = none) :
    Consol.metaRowsFor (r :: rest) u col = Consol.metaRowsFor rest u col := by
  unfold Consol.metaRowsFor
  rw [List.filterMap_cons]
  simp [hc]

theorem metaRowsFor_name (rows : List Consol.CsvRow) (u : Nat) (col : String)
    (r' : Consol.MetaRow) (h : r' ∈ Consol.metaRowsFor rows u col) :
    r'.portfolio_name = col := by
  obtain ⟨r, _, heq⟩ := List.mem_filterMap.mp h
  split at heq
  · split at heq
    · cases heq
      rfl
    · cases heq
  · cases heq

theorem metaRowsFor_asset (rows : List Consol.CsvRow) (u : Nat) (col : String)
    (r' : Consol.MetaRow) (h : r' ∈ Consol.metaRowsFor rows u col) :
    r'.asset_name ∈ rows.map Consol.CsvRow.asset := by
  obtain ⟨r, hr, heq⟩ := List.mem_filterMap.mp h
  split at heq
  · split at heq
    · cases heq
      exact List.mem_map_of_mem _ hr
    · cases heq
  · cases heq

theorem genMetaGo_name_mem (rows : List Consol.CsvRow) :
    ∀ (cols : List String) (m : Consol.UuidMap) (fresh : Nat) (r' : Consol.MetaRow),
      r' ∈ (Consol.genMetaGo rows cols [] m fresh).1 → r'.portfolio_name ∈ cols := by
  intro cols
  induction cols with
  | nil => intro m fresh r' h; simp [Consol.genMetaGo] at h
  | cons col rest ih =>
    intro m fresh r' h
    cases hl : m.lookup col with
    | some u =>
      simp only [Consol.genMetaGo, hl, List.nil_append] at h
      rw [genMetaGo_rows_append] at h
      rcases List.mem_append.mp h with h1 | h1
      · exact List.mem_cons.mpr (Or.inl (metaRowsFor_name rows u col r' h1))
      · exact List.mem_cons_of_mem _ (ih m fresh r' h1)
    | none =>
      simp only [Consol.genMetaGo, hl, List.nil_append] at h
      rw [genMetaGo_rows_append] at h
      rcases List.mem_append.mp h with h1 | h1
      · exact List.mem_cons.mpr (Or.inl (metaRowsFor_name rows fresh col r' h1))
      · exact List.mem_cons_of_mem _ (ih _ (fresh + 1) r' h1)

theorem metaRowsFor_count (u : Nat) (col c a : String) :
    ∀ rows : List Consol.CsvRow,
      (rows.map Consol.CsvRow.asset).Nodup →
      ((Consol.metaRowsFor rows u col).filter
        (fun r => r.portfolio_name == c && r.asset_name == a)).length ≤ 1 := by
  intro rows
  induction rows with
  | nil => intro _; simp [Consol.metaRowsFor]
  | cons r rest ih =>
    intro hnd
    simp only [List.map_cons, List.nodup_cons] at hnd
    obtain ⟨hnotmem, hndrest⟩ := hnd
    cases hc : r.cells col with
    | none =>
      rw [metaRowsFor_cons_none r rest u col hc]
      exact ih hndrest
    | some w =>
      by_cases hw : 0 < w
      · rw [metaRowsFor_cons_pos r rest u col w hc hw]
        rw [List.filter_cons]
        by_cases hp : ((Consol.MetaRow.mk u col r.asset (w / 100)).portfolio_name == c &&
            (Consol.MetaRow.mk u col r.asset (w / 100)).asset_name == a) = true
        · rw [if_pos hp]
          simp only [List.length_cons]
          have ha : r.asset = a := by
            simp only [Bool.and_eq_true, beq_iff_eq] at hp
            exact hp.2
          have hzero : (Consol.metaRowsFor rest u col).filter
              (fun r => r.portfolio_name == c && r.asset_name == a) = [] := by
            rw [List.filter_eq_nil_iff]
            intro x hx
            have hxa := metaRowsFor_asset rest u col x hx
            intro hpx
            simp only [Bool.and_eq_true, beq_iff_eq] at hpx
            rw [hpx.2, ← ha] at hxa
            exact hnotmem hxa
          rw [hzero]
          simp
        · rw [if_neg hp]
          exact ih hndrest
      · rw [metaRowsFor_cons_nonpos r rest u col w hc hw]
        exact ih hndrest

theorem genMetaGo_count (rows : List Consol.CsvRow) (c a : String) :
    ∀ (cols : List String) (m : Consol.UuidMap) (fresh : Nat),
      cols.Nodup → (rows.map Consol.CsvRow.asset).Nodup →
      (((Consol.genMetaGo rows cols [] m fresh).1).filter
        (fun r => r.portfolio_name == c && r.asset_name == a)).length ≤ 1 := by
  intro cols
  induction cols with
  | nil => intro m fresh _ _; simp [Consol.genMetaGo]
  | cons col rest ih =>
    intro m fresh hndc hnda
    simp only [List.nodup_cons] at hndc
    obtain ⟨hcolnot, hndrest⟩ := hndc
    have key : ∀ (u : Nat) (m' : Consol.UuidMap) (f' : Nat),
        ((Consol.metaRowsFor rows u col ++
          (Consol.genMetaGo rows rest [] m' f').1).filter
          (fun r => r.portfolio_name == c && r.asset_name == a)).length ≤ 1 := by
      intro u m' f'
      rw [List.filter_append, List.length_append]
      by_cases hceq : c = col
      · have hrest0 : ((Consol.genMetaGo rows rest [] m' f').1.filter
            (fun r => r.portfolio_name == c && r.asset_name == a)).length = 0 := by
          rw [List.length_eq_zero, List.filter_eq_nil_iff]
          intro x hx hpx
          have := genMetaGo_name_mem rows rest m' f' x hx
          simp only [Bool.and_eq_true, beq_iff_eq] at hpx
          rw [hpx.1, hceq] at this
          exact hcolnot this
        rw [hrest0]
        have := metaRowsFor_count u col c a rows hnda
        omega
      · have hhead0 : ((Consol.metaRowsFor rows u col).filter
            (fun r => r.portfolio_name == c && r.asset_name == a)).length = 0 := by
          rw [List.length_eq_zero, List.filter_eq_nil_iff]
          intro x hx hpx
          have := metaRowsFor_name rows u col x hx
          simp only [Bool.and_eq_true, beq_iff_eq] at hpx
          exact hceq (hpx.1.symm.trans this)
        rw [hhead0]
        have := ih m' f' hndrest hnda
        omega
    cases hl : m.lookup col with
    | some u =>
      simp only [Consol.genMetaGo, hl, List.nil_append]
      rw [genMetaGo_rows_append]
      exact key u m fresh
    | none =>
      simp only [Consol.genMetaGo, hl, List.nil_append]
      rw [genMetaGo_rows_append]
      exact key fresh (m ++ [(col, fresh)]) (fresh + 1)

/-- C2 counterexample: `generate_portfolio_metadata` consults no existing
map; run twice in succession (the identifier supply continuing where the
first run stopped, modelling consecutive `uuid.uuid4()` draws), the same
column name `Portfolio_1` receives two different identifiers — refuting the
claim that identifier assignment is idempotent "likewise" for
`generate_portfolio_metadata`. -/
theorem C2_identifier_idempotence_counterexample :
    ((Consol.generate_portfolio_metadata
        ⟨["Asset_Description", "Portfolio_1"],
         [⟨"US", fun c => if c = "Portfolio_1" then some 50 else none⟩]⟩ 0).2.1).lookup
      "Portfolio_1" = some 0 ∧
    ((Consol.generate_portfolio_metadata
        ⟨["Asset_Description", "Portfolio_1"],
         [⟨"US", fun c => if c = "Portfolio_1" then some 50 else none⟩]⟩
        ((Consol.generate_portfolio_metadata
          ⟨["Asset_Description", "Portfolio_1"],
           [⟨"US", fun c => if c = "Portfolio_1" then some 50 else none⟩]⟩ 0).2.2)).2.1).lookup
      "Portfolio_1" = some 1 ∧
    some (0 : Nat) ≠ some 1 := by
  refine ⟨?_, ?_, by simp⟩ <;> rfl

/-- C2 (amended): identifier assignment in `generate_batch_metadata` is
idempotent: a name already in the map keeps its identifier and nothing new is
minted for it; the key set stays duplicate-free and afterwards contains every
allocation column (each absent name assigned exactly once); re-running the
same batch against the resulting map changes no entry; and one run emits at
most one metadata row per (portfolio, asset) pair.  The processor's
`generate_portfolio_metadata`, by contrast, takes no map and mints fresh
identifiers on every run (see the counterexample). -/
theorem C2_generate_batch_metadata_idempotent :
    (∀ (b : Consol.Batch) (m : Consol.UuidMap) (fresh : Nat) (name : String),
      (m.lookup name).isSome →
      (((Consol.generate_batch_metadata b m fresh).2.1).lookup name) = m.lookup name) ∧
    (∀ (b : Consol.Batch) (m : Consol.UuidMap) (fresh : Nat),
      (m.map Prod.fst).Nodup →
      ((((Consol.generate_batch_metadata b m fresh).2.1).map Prod.fst).Nodup ∧
       ∀ col ∈ Consol.portfolioCols b.cols,
         (((Consol.generate_batch_metadata b m fresh).2.1).lookup col).isSome)) ∧
    (∀ (b : Consol.Batch) (m : Consol.UuidMap) (fresh f2 : Nat),
      (Consol.generate_batch_metadata b
        ((Consol.generate_batch_metadata b m fresh).2.1) f2).2.1 =
        (Consol.generate_batch_metadata b m fresh).2.1) ∧
    (∀ (b : Consol.Batch) (m : Consol.UuidMap) (fresh : Nat) (c a : String),
      (Consol.portfolioCols b.cols).Nodup →
      (b.rows.map Consol.CsvRow.asset).Nodup →
      (((Consol.generate_batch_metadata b m fresh).1).filter
        (fun r => r.portfolio_name == c && r.asset_name == a)).length ≤ 1) := by
  refine ⟨?_, ?_, ?_, ?_⟩
  · intro b m fresh name h
    exact genMetaGo_map_lookup b.rows _ [] m fresh name h
  · intro b m fresh hnd
    exact ⟨genMetaGo_nodup_keys b.rows _ [] m fresh hnd,
      fun col hc => genMetaGo_mem_isSome b.rows _ [] m fresh col hc⟩
  · intro b m fresh f2
    exact (genMetaGo_stable b.rows _ [] _ f2
      (fun c hc => genMetaGo_mem_isSome b.rows _ [] m fresh c hc)).1
  · intro b m fresh c a h1 h2
    exact genMetaGo_count b.rows c a _ m fresh h1 h2

/-- Witness for the amended C2: a map already holding `Grid_001` is unchanged
by a run over a batch whose only allocation column is `Grid_001`. -/
theorem C2_generate_batch_metadata_idempotent_witness :
    (([("Grid_001", 9)] : Consol.UuidMap).lookup "Grid_001").isSome = true ∧
    ((Consol.generate_batch_metadata ⟨["Grid_001"], []⟩
        [("Grid_001", 9)] 0).2.1).lookup "Grid_001" =
      ([("Grid_001", 9)] : Consol.UuidMap).lookup "Grid_001" :=
  ⟨by decide, C2_generate_batch_metadata_idempotent.1 ⟨["Grid_001"], []⟩
    [("Grid_001", 9)] 0 "Grid_001" (by decide)⟩

/-- Witness for C4: a single asset row with weight cell 50 yields one record
with weight 50/100. -/
theorem C4_generate_batch_metadata_weights_witness :
    (Consol.CsvRow.mk "A"
        (fun c => if c = "Portfolio_1" then some 50 else none)).cells "Portfolio_1" =
      some 50 ∧
    Consol.metaRowsFor
        [⟨"A", fun c => if c = "Portfolio_1" then some 50 else none⟩] 5 "Portfolio_1" =
      [⟨5, "Portfolio_1", "A", 50 / 100⟩] := by
  constructor
  · simp
  · have h := C4_generate_batch_metadata_weights.1
      ⟨"A", fun c => if c = "Portfolio_1" then some 50 else none⟩ [] 5 "Portfolio_1" 50
      (by simp) (by norm_num)
    rw [h]
    rfl

/-- C3: in metric extraction (the shared inner row loop of
`extract_batch_metrics` and `extract_performance_metrics_long`), a row whose
cell in the portfolio column is missing or a non-numeric string produces no
record and raises no error, while a numeric cell produces exactly one record
carrying that number; consequently (shown end-to-end on both functions with a
table holding an "N/A" cell between numeric siblings) every metric_value in
the metrics output comes from a numeric cell. -/
theorem C3_metric_extraction_numeric_only :
    (∀ (r : Proc.Row) (rest : List Proc.Row) (j u : Nat) (g s : String) (q : ℚ),
      r.getD j none = some (Proc.Cell.num q) →
      Consol.metricRowsFor (r :: rest) j u g s =
        ⟨u, g, Consol.strOfOpt (r.getD 0 none), q, s⟩ ::
          Consol.metricRowsFor rest j u g s) ∧
    (∀ (r : Proc.Row) (rest : List Proc.Row) (j u : Nat) (g s str : String),
      r.getD j none = some (Proc.Cell.str str) →
      Consol.metricRowsFor (r :: rest) j u g s = Consol.metricRowsFor rest j u g s) ∧
    (∀ (r : Proc.Row) (rest : List Proc.Row) (j u : Nat) (g s : String),
      r.getD j none = none →
      Consol.metricRowsFor (r :: rest) j u g s = Consol.metricRowsFor rest j u g s) ∧
    (Consol.extract_batch_metrics
        [("Portfolio Performance (Jan 2003 - Nov 2025)",
          ⟨["Metric", "Sample Portfolio"],
           [[some (Proc.Cell.str "Sharpe Ratio"), some (Proc.Cell.num 1)],
            [some (Proc.Cell.str "Max Drawdown"), some (Proc.Cell.str "N/A")],
            [some (Proc.Cell.str "CAGR"), some (Proc.Cell.num 2)]]⟩)]
        ⟨["Asset_Description", "Grid_001"], []⟩ [("Grid_001", 7)] =
      [⟨7, "Grid_001", "Sharpe Ratio", 1, "Portfolio Performance (Jan 2003 - Nov 2025)"⟩,
       ⟨7, "Grid_001", "CAGR", 2, "Portfolio Performance (Jan 2003 - Nov 2025)"⟩]) ∧
    (Consol.extract_performance_metrics_long
        [("Portfolio Performance (Jan 2003 - Nov 2025)",
          ⟨["Metric", "Sample Portfolio"],
           [[some (Proc.Cell.str "Sharpe Ratio"), some (Proc.Cell.num 1)],
            [some (Proc.Cell.str "Max Drawdown"), some (Proc.Cell.str "N/A")],
            [some (Proc.Cell.str "CAGR"), some (Proc.Cell.num 2)]]⟩)]
        [("Portfolio_1", 3)] =
      [⟨3, "Portfolio_1", "Sharpe Ratio", 1, "Portfolio Performance (Jan 2003 - Nov 2025)"⟩,
       ⟨3, "Portfolio_1", "CAGR", 2, "Portfolio Performance (Jan 2003 - Nov 2025)"⟩]) := by
  refine ⟨?_, ?_, ?_, by decide, by decide⟩
  · intro r rest j u g s q hc
    rw [List.getD_eq_getElem?_getD] at hc
    unfold Consol.metricRowsFor
    rw [List.filterMap_cons]
    simp [hc]
  · intro r rest j u g s str hc
    rw [List.getD_eq_getElem?_getD] at hc
    unfold Consol.metricRowsFor
    rw [List.filterMap_cons]
    simp [hc]
  · intro r rest j u g s hc
    rw [List.getD_eq_getElem?_getD] at hc
    unfold Consol.metricRowsFor
    rw [List.filterMap_cons]
    simp [hc]

/-- Witness for C3: a numeric cell yields exactly its record. -/
theorem C3_metric_extraction_numeric_only_witness :
    ([some (Proc.Cell.str "Sharpe Ratio"), some (Proc.Cell.num 1)] : Proc.Row).getD 1 none =
      some (Proc.Cell.num 1) ∧
    Consol.metricRowsFor [[some (Proc.Cell.str "Sharpe Ratio"), some (Proc.Cell.num 1)]]
        1 7 "Grid_001" "src" =
      [⟨7, "Grid_001", "Sharpe Ratio", 1, "src"⟩] := by
  constructor
  · decide
  · have h := C3_metric_extraction_numeric_only.1
      [some (Proc.Cell.str "Sharpe Ratio"), some (Proc.Cell.num 1)] [] 1 7
      "Grid_001" "src" 1 (by decide)
    rw [h]
    rfl

/-- C8 counterexample: with the configured allocations CSV missing, `main`'s
allocations-loading step does not propagate the error: the
`except FileNotFoundError` handler catches it and the step completes
normally with no allocation data (`df_allocations = None`) — refuting the
claim that a missing configured allocations CSV makes the enclosing step
fail by propagating the error. -/
theorem C8_missing_csv_counterexample :
    (Consol.FileSystem.mk (fun _ => none) (fun _ => none)
        (fun _ => []) (fun _ => [])).batchCsv
      "data/source_tables/portfolio_allocations.csv" = none ∧
    Consol.main_load_allocations
      (Consol.FileSystem.mk (fun _ => none) (fun _ => none)
        (fun _ => []) (fun _ => []))
      "data/source_tables/portfolio_allocations.csv" = Except.ok none :=
  ⟨rfl, rfl⟩

/-- C8 (amended): a missing batch manifest or batch allocation CSV makes
`consolidate_all_batches` fail by propagating the error (FileNotFoundError
from the read, IndexError from the empty glob), with no fallback; but `main`
catches a missing configured allocations CSV and continues with
`df_allocations = None`. -/
theorem C8_missing_csv_propagates (fs : Consol.FileSystem) (mpath : String) :
    (fs.manifestCsv mpath = none →
      Consol.consolidate_all_batches fs mpath =
        Except.error Consol.PyErr.fileNotFound) ∧
    (∀ (num : Nat) (rfile : String) (rest : List (Nat × String)) (bfile : String)
        (fl : List String),
      fs.manifestCsv mpath = some ((num, rfile) :: rest) →
      fs.globMatches num = bfile :: fl →
      fs.batchCsv bfile = none →
      Consol.consolidate_all_batches fs mpath =
        Except.error Consol.PyErr.fileNotFound) ∧
    (∀ (num : Nat) (rfile : String) (rest : List (Nat × String)),
      fs.manifestCsv mpath = some ((num, rfile) :: rest) →
      fs.globMatches num = [] →
      Consol.consolidate_all_batches fs mpath =
        Except.error Consol.PyErr.indexError) ∧
    (∀ path, fs.batchCsv path = none →
      Consol.main_load_allocations fs path = Except.ok none) := by
  refine ⟨?_, ?_, ?_, ?_⟩
  · intro h
    have hm : Consol.readManifest fs mpath = Except.error Consol.PyErr.fileNotFound := by
      unfold Consol.readManifest
      rw [h]
    unfold Consol.consolidate_all_batches
    simp only [hm, Bind.bind, Except.bind]
  · intro num rfile rest bfile fl h1 h2 h3
    have hm : Consol.readManifest fs mpath = Except.ok ((num, rfile) :: rest) := by
      unfold Consol.readManifest
      rw [h1]
    have hg : Consol.globFirst fs num = Except.ok bfile := by
      unfold Consol.globFirst
      rw [h2]
    have hc : Consol.readBatchCsv fs bfile = Except.error Consol.PyErr.fileNotFound := by
      unfold Consol.readBatchCsv
      rw [h3]
    have hpb : Consol.processBatch fs ⟨[], [], [], 0⟩ (num, rfile) =
        Except.error Consol.PyErr.fileNotFound := by
      unfold Consol.processBatch
      simp only [hg, Bind.bind, Except.bind, hc]
    unfold Consol.consolidate_all_batches
    simp only [hm, Bind.bind, Except.bind, List.foldlM_cons, hpb, Functor.map,
      Except.map]
  · intro num rfile rest h1 h2
    have hm : Consol.readManifest fs mpath = Except.ok ((num, rfile) :: rest) := by
      unfold Consol.readManifest
      rw [h1]
    have hg : Consol.globFirst fs num = Except.error Consol.PyErr.indexError := by
      unfold Consol.globFirst
      rw [h2]
    have hpb : Consol.processBatch fs ⟨[], [], [], 0⟩ (num, rfile) =
        Except.error Consol.PyErr.indexError := by
      unfold Consol.processBatch
      simp only [hg, Bind.bind, Except.bind]
    unfold Consol.consolidate_all_batches
    simp only [hm, Bind.bind, Except.bind, List.foldlM_cons, hpb, Functor.map,
      Except.map]
  · intro path h
    have hc : Consol.readBatchCsv fs path = Except.error Consol.PyErr.fileNotFound := by
      unfold Consol.readBatchCsv
      rw [h]
    unfold Consol.main_load_allocations
    rw [hc]

/-- Witness for the amended C8 at a filesystem with a missing manifest. -/
theorem C8_missing_csv_propagates_witness :
    (Consol.FileSystem.mk (fun _ => none) (fun _ => none)
        (fun _ => []) (fun _ => [])).manifestCsv "data/batch_files/batch_manifest.csv" =
      none ∧
    Consol.consolidate_all_batches
      (Consol.FileSystem.mk (fun _ => none) (fun _ => none)
        (fun _ => []) (fun _ => []))
      "data/batch_files/batch_manifest.csv" =
      Except.error Consol.PyErr.fileNotFound :=
  ⟨rfl, (C8_missing_csv_propagates
    (Consol.FileSystem.mk (fun _ => none) (fun _ => none)
      (fun _ => []) (fun _ => []))
    "data/batch_files/batch_manifest.csv").1 rfl⟩

theorem coarseAttempt_ok (e u i t s r : ℚ) (pid : String) (p : Grid.Portfolio)
    (h : Grid.coarseAttempt e u i t s r pid = some p) :
    (Grid.weights p).sum = 1 ∧ ∀ w ∈ Grid.weights p, Grid.MIN_ALLOC ≤ w := by
  unfold Grid.coarseAttempt at h
  dsimp only at h
  split_ifs at h with h1 h2 h3 h4 h5
  injection h with h
  subst h
  push_neg at h1 h2 h3 h4
  have htot : Grid.total
      ⟨pid, (e - r) * u, (e - r) * i, (e - r) * (1 - u - i),
        (1 - e) * t, (1 - e) * s, (1 - e) * (1 - t - s), r⟩ = 1 := by
    unfold Grid.total Grid.weights
    simp
    ring
  have hw : Grid.weights (Grid.normalize
      ⟨pid, (e - r) * u, (e - r) * i, (e - r) * (1 - u - i),
        (1 - e) * t, (1 - e) * s, (1 - e) * (1 - t - s), r⟩) =
      Grid.weights
      ⟨pid, (e - r) * u, (e - r) * i, (e - r) * (1 - u - i),
        (1 - e) * t, (1 - e) * s, (1 - e) * (1 - t - s), r⟩ := by
    unfold Grid.normalize Grid.weights
    rw [htot]
    simp
  rw [hw]
  constructor
  · exact htot
  · intro w hmem
    unfold Grid.weights at hmem
    simp only [List.mem_cons, List.mem_singleton, List.not_mem_nil, or_false] at hmem
    rcases hmem with rfl | rfl | rfl | rfl | rfl | rfl | rfl
    · exact h2.1
    · exact h2.2
    · exact h1
    · exact h3.2.1
    · exact h3.2.2
    · exact h3.1
    · exact h4

theorem fineAttempt_ok (e u i t s r : ℚ) (pid : String) (p : Grid.Portfolio)
    (h : Grid.fineAttempt e u i t s r pid = some p) :
    (Grid.weights p).sum = 1 ∧ ∀ w ∈ Grid.weights p, Grid.MIN_ALLOC ≤ w := by
  unfold Grid.fineAttempt at h
  dsimp only at h
  split_ifs at h with h0 h1 h2 h3 h4
  injection h with h
  subst h
  push_neg at h0 h1 h2 h3
  have htot : Grid.total
      ⟨pid, (e - r) * u, (e - r) * i, (e - r) * (1 - u - i),
        (1 - e) * t, (1 - e) * s, (1 - e) * (1 - t - s), r⟩ = 1 := by
    unfold Grid.total Grid.weights
    simp
    ring
  have hw : Grid.weights (Grid.normalize
      ⟨pid, (e - r) * u, (e - r) * i, (e - r) * (1 - u - i),
        (1 - e) * t, (1 - e) * s, (1 - e) * (1 - t - s), r⟩) =
      Grid.weights
      ⟨pid, (e - r) * u, (e - r) * i, (e - r) * (1 - u - i),
        (1 - e) * t, (1 - e) * s, (1 - e) * (1 - t - s), r⟩ := by
    unfold Grid.normalize Grid.weights
    rw [htot]
    simp
  rw [hw]
  constructor
  · exact htot
  · intro w hmem
    unfold Grid.weights at hmem
    simp only [List.mem_cons, List.mem_singleton, List.not_mem_nil, or_false] at hmem
    rcases hmem with rfl | rfl | rfl | rfl | rfl | rfl | rfl
    · exact h1.2.1
    · exact h1.2.2
    · exact h1.1
    · exact h2.2.1
    · exact h2.2.2
    · exact h2.1
    · exact h3

theorem randomAttempt_ok (d : Grid.Draw) (pid : String) (p : Grid.Portfolio)
    (h : Grid.randomAttempt d pid = some p) :
    (Grid.weights p).sum = 1 ∧ ∀ w ∈ Grid.weights p, Grid.MIN_ALLOC ≤ w := by
  unfold Grid.randomAttempt at h
  dsimp only at h
  split_ifs at h with h1 h2 h3
  injection h with h
  subst h
  obtain ⟨c1, c2, c3, c4, c5, c6, c7⟩ := h3
  have hmin : ∀ w ∈ Grid.weights (Grid.normalize
      ⟨pid, (d.total_equity - d.reit) * d.eq_w.1, (d.total_equity - d.reit) * d.eq_w.2.1,
        (d.total_equity - d.reit) * d.eq_w.2.2, (1 - d.total_equity) * d.fi_w.1,
        (1 - d.total_equity) * d.fi_w.2.1, (1 - d.total_equity) * d.fi_w.2.2, d.reit⟩),
      Grid.MIN_ALLOC ≤ w := by
    intro w hmem
    unfold Grid.weights at hmem
    simp only [List.mem_cons, List.mem_singleton, List.not_mem_nil, or_false] at hmem
    rcases hmem with rfl | rfl | rfl | rfl | rfl | rfl | rfl
    · exact c1
    · exact c2
    · exact c3
    · exact c4
    · exact c5
    · exact c6
    · exact c7
  refine ⟨?_, hmin⟩
  set p0 : Grid.Portfolio :=
    ⟨pid, (d.total_equity - d.reit) * d.eq_w.1, (d.total_equity - d.reit) * d.eq_w.2.1,
      (d.total_equity - d.reit) * d.eq_w.2.2, (1 - d.total_equity) * d.fi_w.1,
      (1 - d.total_equity) * d.fi_w.2.1, (1 - d.total_equity) * d.fi_w.2.2, d.reit⟩
    with hp0
  by_cases hT : Grid.total p0 = 0
  · exfalso
    have hc1 : Grid.MIN_ALLOC ≤ (Grid.normalize p0).us_equities := c1
    have : (Grid.normalize p0).us_equities = p0.us_equities / Grid.total p0 := rfl
    rw [this, hT, div_zero] at hc1
    norm_num [Grid.MIN_ALLOC] at hc1
  · have hsum : (Grid.weights (Grid.normalize p0)).sum =
        (Grid.weights p0).sum / Grid.total p0 := by
      unfold Grid.normalize Grid.weights
      simp
      ring
    rw [hsum]
    have : (Grid.weights p0).sum = Grid.total p0 := rfl
    rw [this]
    exact div_self hT

theorem grid_foldl_ok
    (att : ℚ → ℚ → ℚ → ℚ → ℚ → ℚ → String → Option Grid.Portfolio) (tag : String)
    (hatt : ∀ a b c d e f pid p, att a b c d e f pid = some p →
      (Grid.weights p).sum = 1 ∧ ∀ w ∈ Grid.weights p, Grid.MIN_ALLOC ≤ w) :
    ∀ (l : List (ℚ × ℚ × ℚ × ℚ × ℚ × ℚ)) (st : List Grid.Portfolio × Nat),
      (∀ p ∈ st.1, (Grid.weights p).sum = 1 ∧
        ∀ w ∈ Grid.weights p, Grid.MIN_ALLOC ≤ w) →
      ∀ p ∈ (l.foldl (Grid.gridStep att tag) st).1,
        (Grid.weights p).sum = 1 ∧ ∀ w ∈ Grid.weights p, Grid.MIN_ALLOC ≤ w := by
  intro l
  induction l with
  | nil => intro st h p hp; exact h p hp
  | cons x rest ih =>
    intro st h p hp
    rw [List.foldl_cons] at hp
    refine ih _ ?_ p hp
    intro q hq
    unfold Grid.gridStep at hq
    cases hc : att x.1 x.2.1 x.2.2.1 x.2.2.2.1 x.2.2.2.2.1 x.2.2.2.2.2
        (tag ++ Grid.pad3 st.2) with
    | none =>
      rw [hc] at hq
      exact h q hq
    | some pp =>
      rw [hc] at hq
      simp only at hq
      rcases List.mem_append.mp hq with h1 | h1
      · exact h q h1
      · simp only [List.mem_singleton] at h1
        subst h1
        exact hatt _ _ _ _ _ _ _ q hc

theorem randomLoop_ok (n : Nat) :
    ∀ (draws : List Grid.Draw) (acc : List Grid.Portfolio),
      (∀ p ∈ acc, (Grid.weights p).sum = 1 ∧
        ∀ w ∈ Grid.weights p, Grid.MIN_ALLOC ≤ w) →
      ∀ p ∈ Grid.randomLoop n draws acc,
        (Grid.weights p).sum = 1 ∧ ∀ w ∈ Grid.weights p, Grid.MIN_ALLOC ≤ w := by
  intro draws
  induction draws with
  | nil => intro acc h p hp; exact h p hp
  | cons d rest ih =>
    intro acc h p hp
    unfold Grid.randomLoop at hp
    by_cases hn : n ≤ acc.length
    · rw [if_pos hn] at hp
      exact h p hp
    · rw [if_neg hn] at hp
      cases hc : Grid.randomAttempt d ("Random_" ++ Grid.pad3 (acc.length + 1)) with
      | none =>
        rw [hc] at hp
        exact ih acc h p hp
      | some pp =>
        rw [hc] at hp
        refine ih _ ?_ p hp
        intro q hq
        rcases List.mem_append.mp hq with h1 | h1
        · exact h q h1
        · simp only [List.mem_singleton] at h1
          subst h1
          exact randomAttempt_ok d _ q hc

/-- C9: every portfolio emitted by `generate_coarse_grid`,
`generate_fine_grid` and `generate_random_portfolios` has (after
normalisation) asset weights summing to exactly 1 per portfolio, with every
individual weight at least the 3% minimum-allocation floor. -/
theorem C9_grid_generators_normalized :
    (∀ p ∈ Grid.generate_coarse_grid, (Grid.weights p).sum = 1 ∧
      ∀ w ∈ Grid.weights p, Grid.MIN_ALLOC ≤ w) ∧
    (∀ p ∈ Grid.generate_fine_grid, (Grid.weights p).sum = 1 ∧
      ∀ w ∈ Grid.weights p, Grid.MIN_ALLOC ≤ w) ∧
    (∀ (n : Nat) (draws : List Grid.Draw),
      ∀ p ∈ Grid.generate_random_portfolios n draws, (Grid.weights p).sum = 1 ∧
        ∀ w ∈ Grid.weights p, Grid.MIN_ALLOC ≤ w) := by
  refine ⟨?_, ?_, ?_⟩
  · intro p hp
    exact grid_foldl_ok Grid.coarseAttempt "Grid_"
      (fun a b c d e f pid q hq => coarseAttempt_ok a b c d e f pid q hq)
      Grid.coarseParams ([], 1) (by simp) p hp
  · intro p hp
    exact grid_foldl_ok Grid.fineAttempt "FineGrid_"
      (fun a b c d e f pid q hq => fineAttempt_ok a b c d e f pid q hq)
      Grid.fineParams ([], 1) (by simp) p hp
  · intro n draws p hp
    exact randomLoop_ok n draws [] (by simp) p hp

/-- Witness for C9: the draw (total equity 3/5, REIT 1/20, uniform Dirichlet
triples) produces one random portfolio whose weights sum to 1 and all meet
the 3% floor. -/
theorem C9_grid_generators_normalized_witness :
    (⟨"Random_001", 11/60, 11/60, 11/60, 2/15, 2/15, 2/15, 1/20⟩ : Grid.Portfolio) ∈
      Grid.generate_random_portfolios 1
        [⟨3/5, 1/20, (1/3, 1/3, 1/3), (1/3, 1/3, 1/3)⟩] ∧
    (Grid.weights
      (⟨"Random_001", 11/60, 11/60, 11/60, 2/15, 2/15, 2/15, 1/20⟩ : Grid.Portfolio)).sum
      = 1 ∧
    ∀ w ∈ Grid.weights
      (⟨"Random_001", 11/60, 11/60, 11/60, 2/15, 2/15, 2/15, 1/20⟩ : Grid.Portfolio),
      Grid.MIN_ALLOC ≤ w := by
  have hid : "Random_" ++ Grid.pad3 (([] : List Grid.Portfolio).length + 1) =
      "Random_001" := by decide
  have hatt : Grid.randomAttempt ⟨3/5, 1/20, (1/3, 1/3, 1/3), (1/3, 1/3, 1/3)⟩
      "Random_001" =
      some ⟨"Random_001", 11/60, 11/60, 11/60, 2/15, 2/15, 2/15, 1/20⟩ := by
    unfold Grid.randomAttempt Grid.normalize Grid.total Grid.weights Grid.MIN_ALLOC
    norm_num
  have hmem : (⟨"Random_001", 11/60, 11/60, 11/60, 2/15, 2/15, 2/15, 1/20⟩ :
      Grid.Portfolio) ∈
      Grid.generate_random_portfolios 1
        [⟨3/5, 1/20, (1/3, 1/3, 1/3), (1/3, 1/3, 1/3)⟩] := by
    unfold Grid.generate_random_portfolios Grid.randomLoop
    rw [hid, hatt]
    simp [Grid.randomLoop]
  exact ⟨hmem, C9_grid_generators_normalized.2.2 1
    [⟨3/5, 1/20, (1/3, 1/3, 1/3), (1/3, 1/3, 1/3)⟩] _ hmem⟩
